import Mathlib

/-!
Verification development for the story-search indexing pipeline
(tools/indexer).  JS strings are modelled as `List Char` (sequences of
Unicode code points); numeric expressions written in JS floating point
(`Math.floor(x * 0.6)` and similar) are modelled in exact arithmetic.
All definitions are translated from the TypeScript sources named in the
doc comments.
-/

namespace StoryIndex

/-! ## Character classes -/

/-- Characters removed by the control-character stripping regex
`[\u0000-\u0008\u000b\u000c\u000e-\u001f\u007f]` used both by
`normalizeCanonicalText` and `detectBinaryGarbage` (ingest.ts). -/
def isStrippedControl (c : Char) : Bool :=
  c.toNat ≤ 0x8 || c.toNat = 0xb || c.toNat = 0xc ||
    (0xe ≤ c.toNat && c.toNat ≤ 0x1f) || c.toNat = 0x7f

/-- The characters matched by the per-line trailing-whitespace regex
`[ \t]+$` (ingest.ts `normalizeCanonicalText`). -/
def isSpaceTab (c : Char) : Bool :=
  c = ' ' || c = '\t'

/-- ECMAScript WhiteSpace and LineTerminator code points: the set removed
by `String.prototype.trim` and matched by the regex class `\s`. -/
def isJsWs (c : Char) : Bool :=
  c.toNat = 0x9 || c.toNat = 0xa || c.toNat = 0xb || c.toNat = 0xc ||
    c.toNat = 0xd || c.toNat = 0x20 || c.toNat = 0xa0 || c.toNat = 0x1680 ||
    (0x2000 ≤ c.toNat && c.toNat ≤ 0x200a) || c.toNat = 0x2028 ||
    c.toNat = 0x2029 || c.toNat = 0x202f || c.toNat = 0x205f ||
    c.toNat = 0x3000 || c.toNat = 0xfeff

/-- Model of `String.prototype.trim`. -/
def jsTrim (s : List Char) : List Char :=
  ((s.dropWhile isJsWs).reverse.dropWhile isJsWs).reverse

/-! ## Canonicalizer (ingest.ts `normalizeCanonicalText`)

The source composes: `normalize("NFKC")`, `replace(/\r\n/g, "\n")`,
`replace(/\r/g, "\n")`, control-character stripping, per-line trailing
whitespace trim, collapsing runs of three or more newlines to two, and a
whole-string trim.  (`normalizeToUtf8` is an encode/decode round trip and
is the identity on well-formed strings.) -/

/-- Model of the global regex replace `replace(/\r\n/g, "\n")`: a global
regex scans left to right replacing non-overlapping matches. -/
def replaceCrlf : List Char → List Char
  | [] => []
  | [c] => [c]
  | a :: b :: rest =>
    if a = '\r' && b = '\n' then '\n' :: replaceCrlf rest
    else a :: replaceCrlf (b :: rest)

/-- Model of `replace(/\r/g, "\n")`. -/
def replaceCr (s : List Char) : List Char :=
  s.map (fun c => if c = '\r' then '\n' else c)

/-- Model of the control-character strip
`replace(/[\u0000-\u0008\u000b\u000c\u000e-\u001f\u007f]/g, "")`. -/
def stripControls (s : List Char) : List Char :=
  s.filter (fun c => !isStrippedControl c)

/-- Model of a single line's `replace(/[ \t]+$/g, "")`. -/
def rstrip (l : List Char) : List Char :=
  (l.reverse.dropWhile isSpaceTab).reverse

/-- Model of `split("\n").map(line => line.replace(/[ \t]+$/g, "")).join("\n")`. -/
def rtrimLines (s : List Char) : List Char :=
  List.intercalate ['\n'] ((s.splitOn '\n').map rstrip)

/-- Worker for `replace(/\n{3,}/g, "\n\n")`: `pending` counts the newline
run read so far; a maximal run of `k` newlines is emitted as
`min k 2` newlines, which is exactly what the greedy global regex does
(runs of one or two are untouched, longer runs become two). -/
def collapseGo : Nat → List Char → List Char
  | pending, [] => List.replicate (min pending 2) '\n'
  | pending, c :: cs =>
    if c = '\n' then collapseGo (pending + 1) cs
    else List.replicate (min pending 2) '\n' ++ c :: collapseGo 0 cs

/-- Model of `replace(/\n{3,}/g, "\n\n")`. -/
def collapseNewlines (s : List Char) : List Char :=
  collapseGo 0 s

/-- The canonicalization pipeline after the NFKC step, exactly in source
order. -/
def canonAfterNfkc (s : List Char) : List Char :=
  jsTrim (collapseNewlines (rtrimLines (stripControls (replaceCr (replaceCrlf s)))))

/-- `normalizeCanonicalText` parameterized by the model of the external
`String.prototype.normalize("NFKC")` step. -/
def canonWith (nfkc : List Char → List Char) (input : List Char) : List Char :=
  canonAfterNfkc (nfkc input)

/-- The slice of the Unicode canonical composition table needed by the
inputs this development evaluates the NFKC step on: LATIN CAPITAL LETTER
A (U+0041) followed by COMBINING GRAVE ACCENT (U+0300) composes to
U+00C0. -/
def composeTable (a b : Char) : Option Char :=
  if a = 'A' && b = '̀' then some 'À' else none

/-- Model of `String.prototype.normalize("NFKC")`, restricted to strings
whose characters either have no decomposition and combining class 0
(starters, e.g. letters and control characters) or are the combining
grave accent: per UAX 15, a combining mark composes with the preceding
starter exactly when no other starter stands between them, so the
canonical composition pass reduces to the adjacent-pair scan below. -/
def nfkcGo : Char → List Char → List Char
  | pending, [] => [pending]
  | pending, c :: cs =>
    match composeTable pending c with
    | some d => nfkcGo d cs
    | none => pending :: nfkcGo c cs

def nfkcM : List Char → List Char
  | [] => []
  | c :: cs => nfkcGo c cs

/-- ingest.ts `normalizeCanonicalText` (with the NFKC step instantiated
by the restricted model `nfkcM`). -/
def normalizeCanonicalText (input : List Char) : List Char :=
  canonWith nfkcM input

/-! ## Chunker (chunking.ts `chunkText`)

`chunkSizeChars` and `chunkOverlapChars` come from `loadConfig`
(config.ts `asNumber`), which accepts exactly the positive integers, so
they are modelled as `Nat`.  The float thresholds
`Math.floor(chunkSizeChars * 0.6)` and `Math.floor(chunkSizeChars * 0.55)`
are modelled exactly as `size * 6 / 10` and `size * 11 / 20`.  The
`while` loop is modelled with fuel; `none` marks a run that exceeds the
fuel, and `chunkText` supplies fuel `cleaned.length + 1`, which suffices
for every terminating run because a terminating run strictly increases
`start` on every iteration (an iteration that fails to increase `start`
recomputes the same state forever, since the body is a function of
`start`). -/

structure ChunkingOptions where
  chunkSizeChars : Nat
  overlapChars : Nat
deriving DecidableEq, Repr

structure ChunkRecord where
  chunkIndex : Nat
  startChar : Nat
  endChar : Nat
  text : List Char
  excerpt : List Char
deriving DecidableEq, Repr

/-- Worker for `replace(/\s+/g, " ")`: each maximal whitespace run
becomes one space.  The flag records whether the previous character was
part of a whitespace run. -/
def collapseWsGo : Bool → List Char → List Char
  | _, [] => []
  | inRun, c :: cs =>
    if isJsWs c then
      if inRun then collapseWsGo true cs else ' ' :: collapseWsGo true cs
    else c :: collapseWsGo false cs

/-- chunking.ts `normalizeExcerpt`:
`text.replace(/\s+/g, " ").trim().slice(0, 220)`. -/
def normalizeExcerpt (text : List Char) : List Char :=
  (jsTrim (collapseWsGo false text)).take 220

/-- Does `s.substring(i, i + 2)` equal the two-character pattern
`a, b`? -/
def matchesAt2 (s : List Char) (i : Nat) (a b : Char) : Bool :=
  s.get? i = some a && s.get? (i + 1) = some b

/-- Largest index `i ≤ fromIdx` at which the two-character pattern
occurs; scans downward from `fromIdx`. -/
def lastIndexOf2From (s : List Char) (a b : Char) : Nat → Option Nat
  | 0 => if matchesAt2 s 0 a b then some 0 else none
  | i + 1 =>
    if matchesAt2 s (i + 1) a b then some (i + 1) else lastIndexOf2From s a b i

/-- Model of `String.prototype.lastIndexOf(search, fromIndex)` for the
two-character search strings used by `chunkText` ("\n\n" and ". "):
returns the largest match position that is at most `fromIdx`. -/
def jsLastIndexOf2 (s : List Char) (a b : Char) (fromIdx : Nat) : Option Nat :=
  lastIndexOf2From s a b fromIdx

/-- The window end after the boundary search of one `chunkText`
iteration, before the `end <= start` reset: tentative end
`min (start + size) len` (written out in place of the source\'s `end`
variable), then if mid-document a paragraph break accepted above
`start + floor(size * 0.6)`, else a sentence break accepted above
`start + floor(size * 0.55)` (the chunk then ends just after the
period). -/
def chunkBoundaryEnd (cleaned : List Char) (size start : Nat) : Nat :=
  if min (start + size) cleaned.length < cleaned.length then
    match jsLastIndexOf2 cleaned '\n' '\n' (min (start + size) cleaned.length) with
    | some pb =>
      if start + size * 6 / 10 < pb then pb
      else
        match jsLastIndexOf2 cleaned '.' ' ' (min (start + size) cleaned.length) with
        | some sb =>
          if start + size * 11 / 20 < sb then sb + 1
          else min (start + size) cleaned.length
        | none => min (start + size) cleaned.length
    | none =>
      match jsLastIndexOf2 cleaned '.' ' ' (min (start + size) cleaned.length) with
      | some sb =>
        if start + size * 11 / 20 < sb then sb + 1
        else min (start + size) cleaned.length
      | none => min (start + size) cleaned.length
  else min (start + size) cleaned.length

/-- The window end of one `chunkText` iteration: the boundary search
result, then the `end <= start` reset. -/
def chunkWindowEnd (cleaned : List Char) (size start : Nat) : Nat :=
  if chunkBoundaryEnd cleaned size start ≤ start then min (start + size) cleaned.length
  else chunkBoundaryEnd cleaned size start

/-- One pass of the `chunkText` while loop, with fuel. -/
def chunkLoop (cleaned : List Char) (size overlap : Nat) :
    Nat → Nat → List ChunkRecord → Option (List ChunkRecord)
  | 0, _, _ => none
  | fuel + 1, start, acc =>
    if start < cleaned.length then
      let e := chunkWindowEnd cleaned size start
      let raw := jsTrim ((cleaned.drop start).take (e - start))
      let acc' :=
        if raw.length > 0 then
          acc ++ [⟨acc.length, start, e, raw, normalizeExcerpt raw⟩]
        else acc
      if cleaned.length ≤ e then some acc'
      else chunkLoop cleaned size overlap fuel (e - overlap) acc'
    else some acc

/-- chunking.ts `chunkText`.  `none` means the real loop diverges on
this input (possible when the overlap is at least as large as the
guaranteed per-iteration progress). -/
def chunkText (text : List Char) (options : ChunkingOptions) :
    Option (List ChunkRecord) :=
  let cleaned := jsTrim (replaceCrlf text)
  if cleaned.isEmpty then some []
  else chunkLoop cleaned options.chunkSizeChars options.overlapChars
    (cleaned.length + 1) 0 []

/-! ## Quality classifier (ingest.ts) -/

inductive StoryStatus where
  | OK | TOO_SHORT | BINARY_GARBAGE | NEEDS_REVIEW
  | PDF_SCANNED_IMAGE | EXTRACTION_FAILED
deriving DecidableEq, Repr

inductive SourceType where
  | txt | html | rtf | doc | docx | pdf
deriving DecidableEq, Repr

/-- The subset of `IndexerConfig` (config.ts `loadConfig`) the modelled
components read.  Every numeric field passes `asNumber`, which accepts
exactly positive integers, hence `Nat`. -/
structure Config where
  cfAiEmbedModel : String
  chunkSizeChars : Nat
  chunkOverlapChars : Nat
  embeddingBatchSize : Nat
  vectorBatchSize : Nat
  minExtractChars : Nat
  pdfMinTextChars : Nat
  vectorBatchMaxBytes : Nat
  storeOriginalBinary : Bool
deriving DecidableEq, Repr

/-- Number of control characters in the extracted text
(`match(/[\u0000-...]/g)` in `detectBinaryGarbage`). -/
def countControl (s : List Char) : Nat :=
  (s.filter isStrippedControl).length

/-- Number of replacement characters U+FFFD in the extracted text. -/
def countReplacement (s : List Char) : Nat :=
  (s.filter (fun c => c = '�')).length

/-- ingest.ts `detectBinaryGarbage`: control/replacement-character ratio
strictly above 1 percent (ratio taken in exact arithmetic). -/
def detectBinaryGarbage (extractedText : List Char) : Bool :=
  if extractedText.isEmpty then false
  else extractedText.length < 100 * (countControl extractedText + countReplacement extractedText)

/-- ingest.ts `detectPdfScannedImage`.  The JS density test
`extractedChars / Math.max(1, fileSizeBytes / 1024) < 2.5` is taken in
exact arithmetic; under the preceding `fileSizeBytes >= 120 * 1024`
guard the `Math.max` clamp is inert and the test is
`2048 * extractedChars < 5 * fileSizeBytes`. -/
def detectPdfScannedImage (extractedChars fileSizeBytes : Nat) (config : Config) : Bool :=
  if config.pdfMinTextChars ≤ extractedChars then false
  else if fileSizeBytes < 120 * 1024 then false
  else 2048 * extractedChars < 5 * fileSizeBytes

/-- ingest.ts `detectNeedsReview`. -/
def detectNeedsReview (sourceType : SourceType) (extractedChars fileSizeBytes : Nat)
    (config : Config) : Bool :=
  if !(sourceType = .html || sourceType = .rtf || sourceType = .doc) then false
  else extractedChars < config.minExtractChars &&
    config.minExtractChars * 8 < fileSizeBytes

/-- Input record of `determineStatus` (extraction methods are the string
tags of the TS union `ExtractMethod`; "failed" marks a failed
extraction). -/
structure StatusParams where
  sourceType : SourceType
  extractMethod : String
  extractedText : List Char
  normalizedText : List Char
  fileSizeBytes : Nat
  extractionError : Option String
deriving DecidableEq, Repr

/-- ingest.ts `determineStatus`, fixed-priority classification.  Returns
the status together with the notes it pushes. -/
def determineStatus (params : StatusParams) (config : Config) :
    StoryStatus × List String :=
  if params.extractionError.isSome || params.extractMethod = "failed" then
    (.EXTRACTION_FAILED, [params.extractionError.getD "Extraction failed"])
  else if detectBinaryGarbage params.extractedText then
    (.BINARY_GARBAGE, ["Extracted text contains excessive control/replacement characters"])
  else
    let extractedChars := params.normalizedText.length
    if params.sourceType = .pdf &&
        detectPdfScannedImage extractedChars params.fileSizeBytes config then
      (.PDF_SCANNED_IMAGE, ["PDF appears scanned/image-based (OCR deferred)"])
    else if detectNeedsReview params.sourceType extractedChars params.fileSizeBytes config then
      (.NEEDS_REVIEW, ["Extraction suspiciously short relative to file size"])
    else if extractedChars < config.minExtractChars then
      (.TOO_SHORT, ["Extracted text shorter than MIN_EXTRACT_CHARS"])
    else (.OK, [])

/-! ## Metadata normalization (unnamed part_015, the revised lmstudio.ts)

`normalizeMetadata` receives the JSON value parsed from the chat
response; JSON values are modelled by `JsonValue`. -/

inductive JsonValue where
  | null
  | bool (b : Bool)
  | num (n : Int)
  | str (s : String)
  | arr (items : List JsonValue)
  | obj (fields : List (String × JsonValue))

/-- JS property access `value.k` on an arbitrary value: `undefined`
(modelled as `null`) unless the value is an object with the field. -/
def JsonValue.field (v : JsonValue) (k : String) : JsonValue :=
  match v with
  | .obj fields => (fields.lookup k).getD .null
  | _ => .null

/-- `String.prototype.trim` on Lean strings. -/
def jsTrimS (s : String) : String :=
  ⟨jsTrim s.data⟩

structure StoryMetadata where
  title : String
  author : Option String
  summary_short : String
  summary_long : String
  genre : String
  tone : String
  setting : String
  themes : List String
  tags : List String
  content_notes : List String
deriving DecidableEq, Repr

/-- `String.prototype.toLowerCase`, modelled character-wise (ASCII
folding; full Unicode folding is immaterial to the claims). -/
def jsToLower (s : String) : String :=
  ⟨s.data.map Char.toLower⟩

/-- Worker for part_015 `dedupeCaseInsensitive`: `seen` holds the
lowercased keys, `output` the kept values in order; the loop breaks as
soon as `output` reaches `maxItems`. -/
def dedupeGo (maxItems : Nat) : List String → List String → List String → List String
  | _, output, [] => output
  | seen, output, value :: rest =>
    let trimmed := jsTrimS value
    if trimmed = "" then dedupeGo maxItems seen output rest
    else
      let key := jsToLower trimmed
      if seen.contains key then dedupeGo maxItems seen output rest
      else
        let output' := output ++ [trimmed]
        if maxItems ≤ output'.length then output'
        else dedupeGo maxItems (key :: seen) output' rest

/-- part_015 `dedupeCaseInsensitive` (JS `toLowerCase` modelled by
`String.toLower`). -/
def dedupeCaseInsensitive (values : List String) (maxItems : Nat) : List String :=
  dedupeGo maxItems [] [] values

/-- part_015 `asArray`: non-arrays become `[]`; array items that are
strings are trimmed, non-strings become `""`; empties are filtered, and
the result is deduped case-insensitively up to `limit`. -/
def asArray (value : JsonValue) (limit : Nat) : List String :=
  match value with
  | .arr items =>
    dedupeCaseInsensitive
      ((items.map (fun item =>
        match item with
        | .str s => jsTrimS s
        | _ => "")).filter (fun s => s ≠ "")) limit
  | _ => []

/-- part_015 `normalizeMetadata`. -/
def normalizeMetadata (input : JsonValue) : StoryMetadata :=
  let value := match input with | .null => JsonValue.obj [] | v => v
  let title :=
    match value.field "title" with
    | .str t => if jsTrimS t ≠ "" then jsTrimS t else "Untitled Story"
    | _ => "Untitled Story"
  let summaryShortRaw :=
    match value.field "summary_short" with
    | .str s => jsTrimS s
    | _ => ""
  let summaryLongRaw :=
    match value.field "summary_long" with
    | .str s => jsTrimS s
    | _ => ""
  { title := title
    author := none
    summary_short := ⟨summaryShortRaw.data.take 280⟩
    summary_long := if summaryLongRaw = "" then summaryShortRaw else summaryLongRaw
    genre := ""
    tone := ""
    setting := ""
    themes := asArray (value.field "themes") 8
    tags := (asArray (value.field "tags") 16).take 12
    content_notes := [] }

/-! ## Ingestion (ingest.ts `ingestSourceFile`)

The per-file extraction result is supplied by the environment (the
extractors call external binaries); everything from canonicalization on
is computed by the model.  The header/body split fields of
`IngestedSource` are not read by `runIndexing` and are elided. -/

structure FileEntry where
  relPath : String
  rawHash : String
  fileSizeBytes : Nat
  extractorRegistered : Bool
  sourceType : SourceType
  extractMethod : String
  titleFromSource : Option String
  extractedText : List Char
  errorMessage : Option String
  notes : List String
deriving DecidableEq, Repr

structure IngestedSource where
  sourcePath : String
  sourceType : SourceType
  extractMethod : String
  titleFromSource : Option String
  normalizedText : List Char
  rawHash : String
  canonHash : Option String
  status : StoryStatus
  statusNotes : Option String
  fileSizeBytes : Nat
  extractedChars : Nat
  extractionError : Option String
deriving DecidableEq, Repr

/-- ingest.ts `ingestSourceFile`: the unregistered-extension early
return, then canonicalization, classification, hashing.  `hash` models
`sha256Text`. -/
def modelIngest (config : Config) (hash : List Char → String) (f : FileEntry) :
    IngestedSource :=
  if !f.extractorRegistered then
    { sourcePath := f.relPath, sourceType := f.sourceType, extractMethod := "failed"
      titleFromSource := none, normalizedText := [], rawHash := f.rawHash
      canonHash := none, status := .EXTRACTION_FAILED
      statusNotes := some "No extractor registered for extension"
      fileSizeBytes := f.fileSizeBytes, extractedChars := 0
      extractionError := some "Unsupported extension" }
  else
    let normalizedText := normalizeCanonicalText f.extractedText
    let st := determineStatus
      { sourceType := f.sourceType, extractMethod := f.extractMethod
        extractedText := f.extractedText, normalizedText := normalizedText
        fileSizeBytes := f.fileSizeBytes, extractionError := f.errorMessage } config
    let notes := (f.notes ++ st.2).filter (fun s => s ≠ "")
    { sourcePath := f.relPath, sourceType := f.sourceType
      extractMethod := f.extractMethod, titleFromSource := f.titleFromSource
      normalizedText := normalizedText, rawHash := f.rawHash
      canonHash := if st.1 = .EXTRACTION_FAILED then none else some (hash normalizedText)
      status := st.1
      statusNotes := if 0 < notes.length then some (String.intercalate "; " notes) else none
      fileSizeBytes := f.fileSizeBytes, extractedChars := normalizedText.length
      extractionError := f.errorMessage }

/-! ## Relational store (cloudflare.ts, D1)

Rows carry the columns the indexer reads or that the claims mention;
presentation-only columns (summaries, genre/tone/setting, the JSON tag
and theme arrays on STORIES) are copied verbatim from the metadata
record by `upsertStory` and are elided. -/

structure StoryRow where
  STORY_ID : String
  SOURCE_PATH : String
  CONTENT_HASH : String
  RAW_HASH : String
  CANON_HASH : Option String
  STORY_STATUS : StoryStatus
  SOURCE_COUNT : Nat
  EXTRACT_METHOD : String
  STATUS_NOTES : Option String
  TITLE : String
  AUTHOR : Option String
  WORD_COUNT : Nat
  CHUNK_COUNT : Nat
  R2_KEY : String
  CHUNKS_KEY : String
  UPDATED_AT : String
deriving DecidableEq, Repr

structure SourceRow where
  STORY_ID : String
  SOURCE_PATH : String
  SOURCE_TYPE : SourceType
  EXTRACT_METHOD : String
  RAW_HASH : String
  INGESTED_AT : String
  TITLE_FROM_SOURCE : Option String
deriving DecidableEq, Repr

structure Db where
  stories : List StoryRow
  storySources : List SourceRow
  tags : List String
  storyTags : List (String × String)
  settings : List (String × String)
deriving DecidableEq, Repr

def emptyDb : Db := ⟨[], [], [], [], []⟩

/-- Association-list write with last-write-wins semantics (used both for
keyed SQL tables and for the in-memory `Map.set`). -/
def mapSet {α : Type} (m : List (String × α)) (k : String) (v : α) :
    List (String × α) :=
  (k, v) :: m.filter (fun e => e.1 ≠ k)

/-- Association-list lookup (`Map.get` / `SELECT ... LIMIT 1`). -/
def mapGet {α : Type} (m : List (String × α)) (k : String) : Option α :=
  (m.find? (fun e => e.1 = k)).map (fun e => e.2)

/-- cloudflare.ts `getSetting`. -/
def getSetting (db : Db) (key : String) : Option String :=
  mapGet db.settings key

/-- cloudflare.ts `upsertStory`: `INSERT ... ON CONFLICT(STORY_ID) DO
UPDATE` replacing every column. -/
def dbUpsertStory (db : Db) (r : StoryRow) : Db :=
  { db with stories := r :: db.stories.filter (fun s => s.STORY_ID ≠ r.STORY_ID) }

/-- cloudflare.ts `upsertStorySource`: `DELETE ... WHERE SOURCE_PATH = ?
AND STORY_ID != ?` followed by `INSERT OR REPLACE`; the net effect is
that the new row is the only row for its source path. -/
def dbUpsertSource (db : Db) (r : SourceRow) : Db :=
  { db with
      storySources :=
      r :: db.storySources.filter (fun s => s.SOURCE_PATH ≠ r.SOURCE_PATH) }

/-- cloudflare.ts `refreshSourceCount`: count the STORY_SOURCES rows of
the story and write the count into STORIES.SOURCE_COUNT; returns the
count as the method does. -/
def refreshSourceCountDb (db : Db) (storyId : String) : Nat × Db :=
  let count := (db.storySources.filter (fun s => s.STORY_ID = storyId)).length
  (count,
    { db with
        stories := db.stories.map (fun s =>
        if s.STORY_ID = storyId then { s with SOURCE_COUNT := count } else s) })

/-- First-occurrence deduplication, the semantics of
`[...new Set(list)]`. -/
def dedupFirstGo : List String → List String → List String
  | _, [] => []
  | seen, x :: rest =>
    if seen.contains x then dedupFirstGo seen rest
    else x :: dedupFirstGo (x :: seen) rest

def dedupFirst (l : List String) : List String := dedupFirstGo [] l

/-- cloudflare.ts `replaceStoryTags`: delete the story's STORY_TAGS
rows, then for each trimmed non-empty deduplicated tag `INSERT OR
IGNORE` into TAGS and `INSERT OR REPLACE` into STORY_TAGS. -/
def dbReplaceStoryTags (db : Db) (storyId : String) (tags : List String) : Db :=
  let uniqueTags := dedupFirst ((tags.map jsTrimS).filter (fun t => t ≠ ""))
  { db with
    tags := db.tags ++ uniqueTags.filter (fun t => !db.tags.contains t)
    storyTags := db.storyTags.filter (fun e => e.1 ≠ storyId) ++
      uniqueTags.map (fun t => (storyId, t)) }

/-! ## Object store, vector index, events -/

inductive R2Object where
  | text (content : List Char)
  | chunkMap (entries : List (Nat × Nat × Nat × List Char))
  | raw
deriving DecidableEq, Repr

structure VectorMeta where
  storyId : String
  chunkIndex : Nat
  genre : String
  tone : String
  title : String
  excerpt : List Char
  storyStatus : StoryStatus
deriving DecidableEq, Repr

structure VectorRecord where
  id : String
  values : List Int
  metadata : VectorMeta
deriving DecidableEq, Repr

/-- Mutation events, in program order.  Reads are not logged. -/
inductive Event where
  | upsertStory (storyId : String)
  | replaceTags (storyId : String)
  | upsertSource (storyId sourcePath : String)
  | refreshCount (storyId : String)
  | orphanCheck (storyId : String)
  | deleteStory (storyId : String)
  | putSetting (key : String)
  | r2Put (key : String)
  | vecUpsert (count : Nat)
deriving DecidableEq, Repr

/-- In-memory row of the prefetched `sourceByPath` map
(`getAllSources`). -/
structure ExistingSourceRow where
  STORY_ID : String
  SOURCE_PATH : String
  RAW_HASH : String
deriving DecidableEq, Repr

/-- In-memory row of the prefetched `canonicalByHash` map
(`getAllStoriesByCanonHash`). -/
structure ExistingStoryRow where
  STORY_ID : String
  SOURCE_PATH : String
  RAW_HASH : String
  CANON_HASH : String
  R2_KEY : String
  CHUNKS_KEY : String
  STORY_STATUS : StoryStatus
  CHUNK_COUNT : Nat
  SOURCE_COUNT : Nat
  TITLE : String
  AUTHOR : Option String
deriving DecidableEq, Repr

/-- `sourceByPath` built by iterating `getAllSources` rows through
`Map.set` (later rows win). -/
def buildSourceMap (db : Db) : List (String × ExistingSourceRow) :=
  db.storySources.foldl
    (fun m s => mapSet m s.SOURCE_PATH ⟨s.STORY_ID, s.SOURCE_PATH, s.RAW_HASH⟩) []

/-- `canonicalByHash` built from `getAllStoriesByCanonHash` (rows with a
non-null, non-empty CANON_HASH) through `Map.set`. -/
def buildCanonMap (db : Db) : List (String × ExistingStoryRow) :=
  db.stories.foldl
    (fun m s =>
      match s.CANON_HASH with
      | some ch =>
        if ch ≠ "" then
          mapSet m ch ⟨s.STORY_ID, s.SOURCE_PATH, s.RAW_HASH, ch, s.R2_KEY,
            s.CHUNKS_KEY, s.STORY_STATUS, s.CHUNK_COUNT, s.SOURCE_COUNT,
            s.TITLE, s.AUTHOR⟩
        else m
      | none => m) []

/-! ## Run state and environment -/

structure RunState where
  db : Db
  r2 : List (String × R2Object)
  upserts : List (List VectorRecord)
  vectorsUpserted : Nat
  vectorBatch : List VectorRecord
  vectorBatchBytes : Nat
  sourceByPath : List (String × ExistingSourceRow)
  canonicalByHash : List (String × ExistingStoryRow)
  scanned : Nat
  indexed : Nat
  deduped : Nat
  skipped : Nat
  failed : Nat
  log : List Event
deriving DecidableEq, Repr

/-- part_014 `RunOptions` (the timing-only `profile` flag is elided). -/
structure RunOptions where
  changedOnly : Bool
  forceReindex : Bool
  reprocessExisting : Bool
  metadataFallbackOnly : Bool
deriving DecidableEq, Repr

/-- The external world of one run: `hash` is sha256; `embed` the fetch
and response parse inside one `createWorkersAiEmbeddings` call (the
count check is applied by the model itself); `metadataResult` the outcome of
`extractStoryMetadata` for a path; `jsonByteLength` is
`Buffer.byteLength(JSON.stringify(vector), "utf8")`; `fallbackTarget`
the path selection of the metadata-fallback-only filter (a D1 read);
`fallbackTitle` the filename-derived title of `fallbackMetadata`;
`originalKeySuffix` the hex-encoded path plus extension used in original
binary keys; `nowIso` the wall clock. -/
structure Env where
  hash : List Char → String
  embed : List (List Char) → Except String (List (List Int))
  metadataResult : String → Except String StoryMetadata
  jsonByteLength : VectorRecord → Nat
  fallbackTarget : String → Bool
  fallbackTitle : String → String
  originalKeySuffix : String → String
  nowIso : String

inductive RunOutcome where
  | ok
  | fatal (msg : String)
  | diverged
deriving DecidableEq, Repr

structure RunResult where
  state : RunState
  outcome : RunOutcome
deriving DecidableEq, Repr

/-! ## Logged state transitions -/

def stUpsertStory (st : RunState) (r : StoryRow) : RunState :=
  { st with db := dbUpsertStory st.db r, log := st.log ++ [.upsertStory r.STORY_ID] }

def stReplaceTags (st : RunState) (storyId : String) (tags : List String) : RunState :=
  { st with
    db := dbReplaceStoryTags st.db storyId tags,
    log := st.log ++ [.replaceTags storyId] }

def stUpsertSource (st : RunState) (r : SourceRow) : RunState :=
  { st with
    db := dbUpsertSource st.db r,
    log := st.log ++ [.upsertSource r.STORY_ID r.SOURCE_PATH] }

def stRefreshCount (st : RunState) (storyId : String) : RunState :=
  { st with
    db := (refreshSourceCountDb st.db storyId).2,
    log := st.log ++ [.refreshCount storyId] }

/-- cloudflare.ts `deleteStoryIfOrphan`: refresh the source count and
delete the story row when it reaches zero. -/
def stOrphanCheck (st : RunState) (storyId : String) : RunState :=
  let res := refreshSourceCountDb st.db storyId
  if 0 < res.1 then
    { st with db := res.2, log := st.log ++ [.orphanCheck storyId] }
  else
    { st with
      db := { res.2 with stories := res.2.stories.filter (fun s => s.STORY_ID ≠ storyId) },
      log := st.log ++ [.orphanCheck storyId, .deleteStory storyId] }

def stR2Put (st : RunState) (key : String) (obj : R2Object) : RunState :=
  { st with r2 := mapSet st.r2 key obj, log := st.log ++ [.r2Put key] }

def stSetSetting (st : RunState) (key value : String) : RunState :=
  { st with
    db := { st.db with settings := mapSet st.db.settings key value },
    log := st.log ++ [.putSetting key] }

/-- part_014 `flushVectorBatch` (`upsertVectors` returns the vector
count). -/
def stFlushVectorBatch (st : RunState) : RunState :=
  if st.vectorBatch.isEmpty then st
  else
    { st with
      upserts := st.upserts ++ [st.vectorBatch],
      vectorsUpserted := st.vectorsUpserted + st.vectorBatch.length,
      vectorBatch := [],
      vectorBatchBytes := 0,
      log := st.log ++ [.vecUpsert st.vectorBatch.length] }

/-- The flush-then-push step of the per-chunk vector loop (part_014
lines 734-743): `vBytes` is the serialized size plus one. -/
def stPushVector (cfg : Config) (st : RunState) (v : VectorRecord) (vBytes : Nat) :
    RunState :=
  let st' :=
    if cfg.vectorBatchSize ≤ st.vectorBatch.length ||
        cfg.vectorBatchMaxBytes < st.vectorBatchBytes + vBytes then
      stFlushVectorBatch st
    else st
  { st' with
    vectorBatch := st'.vectorBatch ++ [v],
    vectorBatchBytes := st'.vectorBatchBytes + vBytes }

/-! ## Run controller helpers (part_014) -/

def shouldGenerateEmbeddings (status : StoryStatus) : Bool :=
  !(status = .EXTRACTION_FAILED || status = .PDF_SCANNED_IMAGE ||
    status = .BINARY_GARBAGE)

def createStoryId (canonHash : String) : String :=
  ⟨canonHash.data.take 40⟩

def statusName : StoryStatus → String
  | .OK => "OK"
  | .TOO_SHORT => "TOO_SHORT"
  | .BINARY_GARBAGE => "BINARY_GARBAGE"
  | .NEEDS_REVIEW => "NEEDS_REVIEW"
  | .PDF_SCANNED_IMAGE => "PDF_SCANNED_IMAGE"
  | .EXTRACTION_FAILED => "EXTRACTION_FAILED"

/-- `countWords`: `text.trim().split(/\s+/).filter(Boolean).length`, the
number of maximal non-whitespace runs.  The flag records whether the
previous character was inside a word. -/
def countWordsGo : Bool → List Char → Nat
  | _, [] => 0
  | inWord, c :: cs =>
    if isJsWs c then countWordsGo false cs
    else (if inWord then 0 else 1) + countWordsGo true cs

def countWords (text : List Char) : Nat := countWordsGo false text

/-- part_014 `fallbackMetadata` (the filename-derived title is
environment-supplied). -/
def fallbackMetadata (env : Env) (relativePath : String) (status : StoryStatus)
    (statusNotes : Option String) : StoryMetadata :=
  { title := env.fallbackTitle relativePath
    author := none
    summary_short := statusNotes.getD ("Ingestion status: " ++ statusName status)
    summary_long := "This source was ingested with status " ++ statusName status ++
      ". Review before relying on generated metadata."
    genre := "", tone := "", setting := ""
    themes := [], tags := []
    content_notes := match statusNotes with | some n => [n] | none => [] }

/-- `String(index).padStart(5, "0")`. -/
def pad5 (n : Nat) : String :=
  let s := toString n
  ⟨List.replicate (5 - s.length) '0' ++ s.data⟩

/-- Splits the embedding inputs into consecutive batches of
`embeddingBatchSize` (config.ts guarantees a positive size; with size
zero the real loop would not advance, so the model steps by at least
one). -/
def sliceBatchesGo {α : Type} (n : Nat) : Nat → List α → List (List α)
  | 0, _ => []
  | _, [] => []
  | fuel + 1, x :: xs => (x :: xs).take n :: sliceBatchesGo n fuel (xs.drop (n - 1))

def sliceBatches {α : Type} (n : Nat) (l : List α) : List (List α) :=
  sliceBatchesGo n l.length l

/-- part_016 (workers-ai.ts) `createWorkersAiEmbeddings`: an empty input
list returns no vectors without a request; `env.embed` stands for the
fetch plus `parseEmbeddings` (either can fail); a returned count that
differs from the input count throws, with the source's (vacuous)
single-vector/single-input exception transcribed as written
(part_016 lines 263-292). -/
def createWorkersAiEmbeddings (env : Env) (inputs : List (List Char)) :
    Except String (List (List Int)) :=
  if inputs.length = 0 then .ok []
  else
    match env.embed inputs with
    | .error e => .error e
    | .ok vectors =>
      if vectors.length ≠ inputs.length ∧ ¬(vectors.length = 1 ∧ inputs.length = 1) then
        .error ("Workers AI returned " ++ toString vectors.length ++
          " embeddings for " ++ toString inputs.length ++ " inputs")
      else .ok vectors

/-- part_014 `embedInBatches`. -/
def embedInBatches (env : Env) (cfg : Config) (inputs : List (List Char)) :
    Except String (List (List Int)) :=
  (sliceBatches cfg.embeddingBatchSize inputs).foldl
    (fun acc batch =>
      match acc with
      | .error e => .error e
      | .ok vs =>
        match createWorkersAiEmbeddings env batch with
        | .ok bs => .ok (vs ++ bs)
        | .error e => .error e)
    (.ok [])

/-- One vector record of the per-chunk loop (part_014 lines 720-732). -/
def buildVector (storyId : String) (metadata : StoryMetadata) (status : StoryStatus)
    (embeddings : List (List Int)) (index : Nat) (chunk : ChunkRecord) : VectorRecord :=
  { id := storyId ++ ":" ++ pad5 index
    values := (embeddings.get? index).getD []
    metadata := ⟨storyId, chunk.chunkIndex, metadata.genre, metadata.tone,
      metadata.title, chunk.excerpt, status⟩ }

/-- The per-chunk vector accumulation loop. -/
def vectorLoop (cfg : Config) (env : Env) (storyId : String)
    (metadata : StoryMetadata) (status : StoryStatus)
    (embeddings : List (List Int)) (st : RunState) (chunks : List ChunkRecord) :
    RunState :=
  chunks.enum.foldl
    (fun s ic =>
      let v := buildVector storyId metadata status embeddings ic.1 ic.2
      stPushVector cfg s v (env.jsonByteLength v + 1))
    st

/-- `Number.parseInt(value, 10)` restricted by the `> 0` guard of
`loadEmbeddingSettings`: leading whitespace and an optional sign, then
decimal digits; `none` when parsing fails or the value is not
positive. -/
def jsParseIntPos (s : String) : Option Nat :=
  let t := s.data.dropWhile isJsWs
  let signed : Bool × List Char :=
    match t with
    | '-' :: r => (true, r)
    | '+' :: r => (false, r)
    | _ => (false, t)
  let ds := signed.2.takeWhile (fun c => '0' ≤ c && c ≤ '9')
  if ds.isEmpty || signed.1 then none
  else
    let n := ds.foldl (fun a c => a * 10 + (c.toNat - '0'.toNat)) 0
    if 0 < n then some n else none

/-- part_014 `loadEmbeddingSettings`. -/
def loadEmbeddingSettings (db : Db) : Option String × Option Nat :=
  (getSetting db "embedding_model_name",
    match getSetting db "embedding_dimension" with
    | none => none
    | some s => if s ≠ "" then jsParseIntPos s else none)

def probeText : List Char := "embedding dimension probe".toList

def initState (db0 : Db) (scanned : Nat) : RunState :=
  { db := db0, r2 := [], upserts := [], vectorsUpserted := 0, vectorBatch := []
    vectorBatchBytes := 0, sourceByPath := [], canonicalByHash := []
    scanned := scanned, indexed := 0, deduped := 0, skipped := 0, failed := 0
    log := [] }

/-! ## Per-file processing (part_014 `runIndexing` loop body)

An `Except.error` result marks the point where the real loop diverges
inside `chunkText`; the carried state is the state at that point (the
run performs no further writes).  External store calls are modelled as
succeeding; metadata and embedding calls are fallible exactly as the
source handles them.  The local `outputTextDir` artifact write and the
console/report output are local-disk effects and are elided. -/

/-- The shared step that follows an upsertStorySource: when the path's
previous SourceRecord pointed at a different story, run the orphan check
and drop the prior story from the in-memory canonical map (part_014
lines 575-583 and 681-690). -/
def orphanStep (st : RunState) (previousSource : Option ExistingSourceRow)
    (storyId : String) : RunState :=
  match previousSource with
  | some prev =>
    if prev.STORY_ID ≠ storyId then
      let st2 := stOrphanCheck st prev.STORY_ID
      { st2 with
        canonicalByHash := st2.canonicalByHash.filter
          (fun e => e.2.STORY_ID ≠ prev.STORY_ID) }
    else st
  | none => st

/-- The tail of the full pipeline branch: generate embeddings and upsert
vectors when the status allows it (part_014 lines 705-748). -/
def runAiTail (cfg : Config) (env : Env) (storyId : String)
    (metadata : StoryMetadata) (status : StoryStatus) (chunks : List ChunkRecord)
    (shouldRunAi : Bool) (st : RunState) : RunState :=
  if shouldRunAi then
    match embedInBatches env cfg (chunks.map (fun c => c.text)) with
    | .error _ => { st with failed := st.failed + 1 }
    | .ok embeddings =>
      let st := vectorLoop cfg env storyId metadata status embeddings st chunks
      { st with indexed := st.indexed + 1 }
  else { st with indexed := st.indexed + 1 }

def processFile (cfg : Config) (opts : RunOptions) (env : Env)
    (unchanged : List String) (st : RunState) (f : FileEntry) :
    Except RunState RunState :=
  let relativePath := f.relPath
  let previousSource := mapGet st.sourceByPath relativePath
  if opts.changedOnly && unchanged.contains relativePath then
    .ok { st with skipped := st.skipped + 1 }
  else
    -- The lines 501-509 fallback re-hash applies to files whose prehash was
    -- not preloaded; the model's prehash pass covers every file with a
    -- previous source, so it never fires here.
    let ingest := modelIngest cfg env.hash f
    match ingest.canonHash with
    | none => .ok { st with failed := st.failed + 1 }
    | some canonHash =>
      if ingest.status = .EXTRACTION_FAILED then
        .ok { st with failed := st.failed + 1 }
      else
        let derivedStoryId := createStoryId canonHash
        let existingCanonical := mapGet st.canonicalByHash canonHash
        let storyId := (existingCanonical.map (fun e => e.STORY_ID)).getD derivedStoryId
        let ingestedAt := env.nowIso
        let st :=
          if cfg.storeOriginalBinary then
            stR2Put st ("sources/original/" ++ storyId ++ "/" ++
              env.originalKeySuffix relativePath) .raw
          else st
        if existingCanonical.isSome && !opts.reprocessExisting then
          -- dedup branch (part_014 lines 560-592)
          let st := stUpsertSource st ⟨storyId, relativePath, ingest.sourceType,
            ingest.extractMethod, ingest.rawHash, ingestedAt, ingest.titleFromSource⟩
          let st := orphanStep st previousSource storyId
          let st := stRefreshCount st storyId
          let st := { st with
            sourceByPath := mapSet st.sourceByPath relativePath
              ⟨storyId, relativePath, ingest.rawHash⟩ }
          .ok { st with deduped := st.deduped + 1 }
        else
          -- full pipeline branch (part_014 lines 594-748)
          let shouldRunAi := shouldGenerateEmbeddings ingest.status
          let metaRes : StoryMetadata × Option String :=
            if shouldRunAi then
              match env.metadataResult relativePath with
              | .ok m => (m, none)
              | .error msg =>
                let note := "Metadata extraction fallback used: " ++ msg
                (fallbackMetadata env relativePath ingest.status (some note), some note)
            else (fallbackMetadata env relativePath ingest.status ingest.statusNotes, none)
          let metadata := metaRes.1
          match chunkText ingest.normalizedText ⟨cfg.chunkSizeChars, cfg.chunkOverlapChars⟩ with
          | none => .error st
          | some chunks =>
            let r2Key := "stories/" ++ storyId ++ ".txt"
            let chunksKey := "stories/" ++ storyId ++ ".chunks.json"
            let st := stR2Put st r2Key (.text ingest.normalizedText)
            let st := stR2Put st chunksKey (.chunkMap (chunks.map (fun c =>
              (c.chunkIndex, c.startChar, c.endChar, c.excerpt))))
            let statusNotes :=
              match metaRes.2 with
              | some note =>
                some ((ingest.statusNotes.map (fun s => s ++ " | " ++ note)).getD note)
              | none => ingest.statusNotes
            let story : StoryRow :=
              { STORY_ID := storyId, SOURCE_PATH := relativePath
                CONTENT_HASH := canonHash, RAW_HASH := ingest.rawHash
                CANON_HASH := some canonHash, STORY_STATUS := ingest.status
                SOURCE_COUNT := 1, EXTRACT_METHOD := ingest.extractMethod
                STATUS_NOTES := statusNotes, TITLE := metadata.title
                AUTHOR := metadata.author
                WORD_COUNT := countWords ingest.normalizedText
                CHUNK_COUNT := chunks.length, R2_KEY := r2Key
                CHUNKS_KEY := chunksKey, UPDATED_AT := ingestedAt }
            let st := stUpsertStory st story
            let st := stReplaceTags st storyId (if shouldRunAi then metadata.tags else [])
            let st := stUpsertSource st ⟨storyId, relativePath, ingest.sourceType,
              ingest.extractMethod, ingest.rawHash, ingestedAt, ingest.titleFromSource⟩
            let st := orphanStep st previousSource storyId
            let st := stRefreshCount st storyId
            let st := { st with
              sourceByPath := mapSet st.sourceByPath relativePath
                ⟨storyId, relativePath, ingest.rawHash⟩
              canonicalByHash := mapSet st.canonicalByHash canonHash
                ⟨storyId, relativePath, ingest.rawHash, canonHash, r2Key, chunksKey,
                  ingest.status, chunks.length, 1, metadata.title, metadata.author⟩ }
            .ok (runAiTail cfg env storyId metadata ingest.status chunks shouldRunAi st)

def processFiles (cfg : Config) (opts : RunOptions) (env : Env)
    (unchanged : List String) :
    RunState → List FileEntry → Except RunState RunState
  | st, [] => .ok st
  | st, f :: rest =>
    match processFile cfg opts env unchanged st f with
    | .error st2 => .error st2
    | .ok st2 => processFiles cfg opts env unchanged st2 rest

/-- part_014 `runIndexing`: metadata-fallback file selection, embedding
dimension probe, Settings consistency gate, source and canonical-hash
prefetch, the incremental prehash, the per-file loop, the final vector
flush, and the Settings writes.  Report files go to the local disk and
are elided. -/
def runIndexing (cfg : Config) (opts : RunOptions) (env : Env)
    (discoveredFiles : List FileEntry) (db0 : Db) : RunResult :=
  let files :=
    if opts.metadataFallbackOnly then
      discoveredFiles.filter (fun f => env.fallbackTarget f.relPath)
    else discoveredFiles
  let st0 := initState db0 files.length
  match createWorkersAiEmbeddings env [probeText] with
  | .error msg => ⟨st0, .fatal msg⟩
  | .ok probeVectors =>
    let runtimeDimension := ((probeVectors.head?).map List.length).getD 0
    if runtimeDimension = 0 then
      ⟨st0, .fatal "Workers AI embedding dimension probe failed"⟩
    else
      let settings := loadEmbeddingSettings db0
      if (match settings.1 with
            | some m => m ≠ "" && m ≠ cfg.cfAiEmbedModel
            | none => false) && !opts.forceReindex then
        ⟨st0, .fatal "Embedding model mismatch"⟩
      else if (match settings.2 with
            | some d => d ≠ runtimeDimension
            | none => false) && !opts.forceReindex then
        ⟨st0, .fatal "Embedding dimension mismatch"⟩
      else
        let st1 := { st0 with
          sourceByPath := buildSourceMap db0
          canonicalByHash := buildCanonMap db0 }
        let unchanged :=
          if opts.changedOnly then
            (files.filter (fun f =>
              match mapGet st1.sourceByPath f.relPath with
              | some prev => prev.RAW_HASH = f.rawHash
              | none => false)).map (fun f => f.relPath)
          else []
        match processFiles cfg opts env unchanged st1 files with
        | .error stD => ⟨stD, .diverged⟩
        | .ok st2 =>
          let st3 := stFlushVectorBatch st2
          let st4 := stSetSetting st3 "embedding_model_name" cfg.cfAiEmbedModel
          let st5 := stSetSetting st4 "embedding_dimension" (toString runtimeDimension)
          let st6 := stSetSetting st5 "indexed_at" env.nowIso
          ⟨st6, .ok⟩

/-! ## Proof-support forms of the canonicalizer

`rtlGo` is the single-pass form of `rtrimLines` used in proofs (the
buffered spaces and tabs are dropped at a newline or the end and emitted
before any other character); `noTrail` characterizes its fixed points,
`noNl3` the fixed points of the newline collapse. -/

def rtlGo : List Char → List Char → List Char
  | _, [] => []
  | pend, c :: cs =>
    if c = '\n' then '\n' :: rtlGo [] cs
    else if isSpaceTab c then rtlGo (pend ++ [c]) cs
    else pend ++ c :: rtlGo [] cs

/-- No space or tab stands immediately before a newline. -/
def noTrailPair (a b : Char) : Prop :=
  isSpaceTab a = true → b ≠ '\n'

/-- No line (including the final one) carries trailing spaces or tabs. -/
def noTrail (s : List Char) : Prop :=
  s.Chain' noTrailPair ∧ ∀ a, s.getLast? = some a → isSpaceTab a = false

/-- No run of three or more newlines. -/
def noNl3 : List Char → Bool
  | [] => true
  | [_] => true
  | [_, _] => true
  | a :: b :: c :: rest =>
    !(a = '\n' && b = '\n' && c = '\n') && noNl3 (b :: c :: rest)

/-! ## Statement-level predicates -/

/-- Every character of `cleaned` in the half-open range `[i, j)` is
whitespace. -/
def wsOnlyBetween (cleaned : List Char) (i j : Nat) : Prop :=
  ∀ k, i ≤ k → k < j → ∀ c, cleaned.get? k = some c → isJsWs c = true

/-- Two consecutive chunks either touch or overlap, or are separated
only by whitespace. -/
def chunkGapOk (cleaned : List Char) (a b : ChunkRecord) : Prop :=
  b.startChar ≤ a.endChar ∨ wsOnlyBetween cleaned a.endChar b.startChar

/-- The coverage shape of a chunk list over `cleaned`: dense zero-based
indices, first chunk at offset zero, last chunk ending at the text
length, in-bounds non-empty spans, and whitespace-only gaps at worst. -/
def chunksCover (cleaned : List Char) (out : List ChunkRecord) : Prop :=
  out.map ChunkRecord.chunkIndex = List.range out.length ∧
  out.head?.map ChunkRecord.startChar = some 0 ∧
  out.getLast?.map ChunkRecord.endChar = some cleaned.length ∧
  (∀ c ∈ out, c.startChar < c.endChar ∧ c.endChar ≤ cleaned.length) ∧
  out.Chain' (chunkGapOk cleaned)

/-- Total serialized size of one vector-index upsert batch, as the batch
accumulator counts it (`Buffer.byteLength(JSON.stringify(vector)) + 1`
per record). -/
def batchBytes (env : Env) (b : List VectorRecord) : Nat :=
  b.foldl (fun acc v => acc + (env.jsonByteLength v + 1)) 0

/-- The carried state of a per-file result, for both the normal and the
divergence case. -/
def exceptState : Except RunState RunState → RunState
  | .ok s => s
  | .error s => s

/-- The batch-accumulator invariant: the open batch respects the count
bound, its byte counter is exact, it respects the byte ceiling unless it
is a lone oversized record, and every flushed batch satisfies the same
two bounds. -/
def vecInv (cfg : Config) (env : Env) (st : RunState) : Prop :=
  st.vectorBatch.length ≤ cfg.vectorBatchSize ∧
  st.vectorBatchBytes = batchBytes env st.vectorBatch ∧
  (st.vectorBatchBytes ≤ cfg.vectorBatchMaxBytes ∨ st.vectorBatch.length = 1) ∧
  ∀ b ∈ st.upserts, b.length ≤ cfg.vectorBatchSize ∧
    (batchBytes env b ≤ cfg.vectorBatchMaxBytes ∨ b.length = 1)

/-! ## Concrete fixtures for witnesses and counterexamples -/

def exampleConfig : Config :=
  { cfAiEmbedModel := "embed-model-a"
    chunkSizeChars := 100
    chunkOverlapChars := 10
    embeddingBatchSize := 24
    vectorBatchSize := 200
    minExtractChars := 5
    pdfMinTextChars := 800
    vectorBatchMaxBytes := 1000000
    storeOriginalBinary := false }

def exampleMetadata : StoryMetadata :=
  { title := "A Title", author := none, summary_short := "short"
    summary_long := "long", genre := "fantasy", tone := "light"
    setting := "sea", themes := ["travel"], tags := ["boat"]
    content_notes := [] }

def exampleEnv : Env :=
  { hash := fun l => String.mk l
    embed := fun xs => .ok (xs.map (fun _ => [1, 2]))
    metadataResult := fun _ => .ok exampleMetadata
    jsonByteLength := fun _ => 50
    fallbackTarget := fun _ => false
    fallbackTitle := fun p => p
    originalKeySuffix := fun p => p
    nowIso := "2026-01-01T00:00:00.000Z" }

def exampleFile (p : String) (txt : String) : FileEntry :=
  { relPath := p, rawHash := "raw-" ++ p, fileSizeBytes := 100
    extractorRegistered := true, sourceType := .txt
    extractMethod := "txt_utf8", titleFromSource := none
    extractedText := txt.toList, errorMessage := none, notes := [] }

def exampleOpts : RunOptions := ⟨false, false, false, false⟩

/-- A configuration whose vector-batch byte ceiling (10) is below the
serialized size of a single vector record under `exampleEnv` (51). -/
def c9Config : Config :=
  { cfAiEmbedModel := "embed-model-a"
    chunkSizeChars := 100
    chunkOverlapChars := 10
    embeddingBatchSize := 24
    vectorBatchSize := 2
    minExtractChars := 5
    pdfMinTextChars := 800
    vectorBatchMaxBytes := 10
    storeOriginalBinary := false }

/-! # Theorems -/

/-! ## C6 / C7: classification priority and the binary-garbage rule -/

theorem detectBinaryGarbage_iff (s : List Char) :
    detectBinaryGarbage s = true ↔
      s.length < 100 * (countControl s + countReplacement s) := by
  unfold detectBinaryGarbage
  by_cases h : s.isEmpty
  · rw [List.isEmpty_iff] at h
    subst h
    simp [countControl, countReplacement]
  · simp [h]

/-- C6: a file whose extraction reported an error or whose method is the
failed marker classifies as EXTRACTION_FAILED, whatever the text
lengths; in particular it is never TOO_SHORT. -/
theorem c6_extraction_failed_priority (params : StatusParams) (config : Config)
    (h : params.extractionError.isSome = true ∨ params.extractMethod = "failed") :
    (determineStatus params config).1 = .EXTRACTION_FAILED ∧
      (determineStatus params config).1 ≠ .TOO_SHORT := by
  unfold determineStatus
  rcases h with h | h <;> simp [h]

theorem c6_witness :
    ((({ sourceType := .txt, extractMethod := "failed", extractedText := []
         normalizedText := [], fileSizeBytes := 10
         extractionError := none } : StatusParams).extractionError.isSome = true ∨
      ({ sourceType := .txt, extractMethod := "failed", extractedText := []
         normalizedText := [], fileSizeBytes := 10
         extractionError := none } : StatusParams).extractMethod = "failed") ∧
      (determineStatus
        { sourceType := .txt, extractMethod := "failed", extractedText := []
          normalizedText := [], fileSizeBytes := 10
          extractionError := none } exampleConfig).1 = .EXTRACTION_FAILED) := by
  refine ⟨Or.inr rfl, ?_⟩
  exact (c6_extraction_failed_priority _ exampleConfig (Or.inr rfl)).1

/-- C7: for a file whose extraction succeeded, the classifier assigns
BINARY_GARBAGE exactly when the control/replacement character ratio of
the extracted (pre-normalization) text strictly exceeds one percent. -/
theorem c7_binary_garbage_iff (params : StatusParams) (config : Config)
    (herr : params.extractionError = none) (hm : params.extractMethod ≠ "failed") :
    ((determineStatus params config).1 = .BINARY_GARBAGE ↔
      params.extractedText.length <
        100 * (countControl params.extractedText + countReplacement params.extractedText)) := by
  have hfirst :
      ¬ ((params.extractionError.isSome || decide (params.extractMethod = "failed")) = true) := by
    simp [herr, hm]
  rw [← detectBinaryGarbage_iff]
  by_cases hg : detectBinaryGarbage params.extractedText
  · have hbg : (determineStatus params config).1 = .BINARY_GARBAGE := by
      unfold determineStatus
      rw [if_neg hfirst, if_pos hg]
    simp [hbg, hg]
  · have hnbg : (determineStatus params config).1 ≠ .BINARY_GARBAGE := by
      unfold determineStatus
      rw [if_neg hfirst, if_neg hg]
      intro hcontra
      dsimp only at hcontra
      split at hcontra
      · simp at hcontra
      · split at hcontra
        · simp at hcontra
        · split at hcontra
          · simp at hcontra
          · simp at hcontra
    simp [hnbg, hg]

theorem c7_witness :
    (({ sourceType := .txt, extractMethod := "txt_utf8"
        extractedText := ['\x01', 'a'], normalizedText := ['a']
        fileSizeBytes := 10, extractionError := none } : StatusParams).extractionError =
          none ∧
      (determineStatus
        { sourceType := .txt, extractMethod := "txt_utf8"
          extractedText := ['\x01', 'a'], normalizedText := ['a']
          fileSizeBytes := 10, extractionError := none } exampleConfig).1 =
        .BINARY_GARBAGE) := by
  refine ⟨rfl, ?_⟩
  refine (c7_binary_garbage_iff _ exampleConfig rfl (by decide)).2 (by decide)

/-! ## C8: theme and tag caps of the metadata normalizer -/

theorem dedupeGo_length_le (maxItems : Nat) :
    ∀ (values seen output : List String), output.length < maxItems →
      (dedupeGo maxItems seen output values).length ≤ maxItems := by
  intro values
  induction values with
  | nil => intro seen output h; simpa [dedupeGo] using Nat.le_of_lt h
  | cons v rest ih =>
    intro seen output h
    rw [dedupeGo]
    dsimp only
    by_cases h1 : jsTrimS v = ""
    · rw [if_pos h1]
      exact ih _ _ h
    · rw [if_neg h1]
      by_cases h2 : seen.contains (jsToLower (jsTrimS v)) = true
      · rw [if_pos h2]
        exact ih _ _ h
      · rw [if_neg h2]
        by_cases h3 : maxItems ≤ (output ++ [jsTrimS v]).length
        · rw [if_pos h3]
          simp only [List.length_append, List.length_cons, List.length_nil]
          omega
        · rw [if_neg h3]
          push_neg at h3
          exact ih _ _ h3

theorem asArray_length_le (v : JsonValue) (limit : Nat) (h : 0 < limit) :
    (asArray v limit).length ≤ limit := by
  cases v <;> simp only [asArray, dedupeCaseInsensitive, List.length_nil, Nat.zero_le]
  exact dedupeGo_length_le _ _ _ _ (by simpa using h)

/-- C8 counterexample: a schema-conforming service response carrying six
distinct themes yields a metadata record with six themes, refuting the
five-theme cap (part_015 caps themes at eight). -/
theorem c8_counterexample :
    (normalizeMetadata (.obj [("themes",
        .arr [.str "t1", .str "t2", .str "t3", .str "t4", .str "t5", .str "t6"])])).themes =
      ["t1", "t2", "t3", "t4", "t5", "t6"] := by
  rfl

/-- C8 amended: every metadata record produced by part_015
`normalizeMetadata` carries at most eight themes and at most twelve
tags, for every possible service response. -/
theorem c8_amended_caps (input : JsonValue) :
    (normalizeMetadata input).themes.length ≤ 8 ∧
      (normalizeMetadata input).tags.length ≤ 12 := by
  refine ⟨?_, ?_⟩
  · show (asArray _ 8).length ≤ 8
    exact asArray_length_le _ 8 (by omega)
  · show ((asArray _ 16).take 12).length ≤ 12
    rw [List.length_take]
    exact Nat.min_le_left _ _

/-! ## C10 and C5 helpers: chunk window facts -/

theorem lastIndexOf2From_spec (s : List Char) (a b : Char) :
    ∀ fromIdx i, lastIndexOf2From s a b fromIdx = some i →
      s.get? i = some a ∧ s.get? (i + 1) = some b ∧ i ≤ fromIdx := by
  intro fromIdx
  induction fromIdx with
  | zero =>
    intro i h
    rw [lastIndexOf2From] at h
    split at h
    · next hm =>
      rw [matchesAt2, Bool.and_eq_true, decide_eq_true_eq, decide_eq_true_eq] at hm
      cases h
      exact ⟨hm.1, hm.2, le_refl 0⟩
    · cases h
  | succ n ih =>
    intro i h
    rw [lastIndexOf2From] at h
    split at h
    · next hm =>
      rw [matchesAt2, Bool.and_eq_true, decide_eq_true_eq, decide_eq_true_eq] at hm
      cases h
      exact ⟨hm.1, hm.2, le_refl _⟩
    · obtain ⟨ha, hb, hle⟩ := ih i h
      exact ⟨ha, hb, hle.trans (Nat.le_succ n)⟩

theorem jsLastIndexOf2_lt_length (s : List Char) (a b : Char) (fromIdx i : Nat)
    (h : jsLastIndexOf2 s a b fromIdx = some i) : i + 1 < s.length := by
  obtain ⟨_, hb, _⟩ := lastIndexOf2From_spec s a b fromIdx i h
  obtain ⟨hlt, _⟩ := List.get?_eq_some.1 hb
  exact hlt

theorem floor55_le_floor60 (size : Nat) : size * 11 / 20 ≤ size * 6 / 10 := by
  have h : size * 6 / 10 = size * 12 / 20 := by
    rw [show size * 12 = 2 * (size * 6) by ring, show (20 : Nat) = 2 * 10 from rfl,
      Nat.mul_div_mul_left _ _ (by omega)]
  rw [h]
  exact Nat.div_le_div_right (by omega)

theorem floor55_le_size (size : Nat) : size * 11 / 20 ≤ size := by
  calc size * 11 / 20 ≤ size * 20 / 20 := Nat.div_le_div_right (by omega)
    _ = size := Nat.mul_div_cancel size (by omega)

theorem chunkBoundaryEnd_spec (cleaned : List Char) (size overlap start : Nat)
    (hov : overlap < size * 11 / 20) (hs : start < cleaned.length) :
    start < chunkBoundaryEnd cleaned size start ∧
      chunkBoundaryEnd cleaned size start ≤ cleaned.length ∧
      (chunkBoundaryEnd cleaned size start = cleaned.length ∨
        start + overlap < chunkBoundaryEnd cleaned size start) := by
  have h60 : size * 11 / 20 ≤ size * 6 / 10 := floor55_le_floor60 size
  have hsz : size * 11 / 20 ≤ size := floor55_le_size size
  unfold chunkBoundaryEnd
  by_cases he0 : min (start + size) cleaned.length < cleaned.length
  · rw [if_pos he0]
    rcases hpb : jsLastIndexOf2 cleaned '\n' '\n' (min (start + size) cleaned.length)
      with _ | pb
    · simp only [hpb]
      rcases hsb : jsLastIndexOf2 cleaned '.' ' ' (min (start + size) cleaned.length)
        with _ | sb
      · simp only [hsb]
        omega
      · simp only [hsb]
        have hsblen := jsLastIndexOf2_lt_length _ _ _ _ _ hsb
        split <;> omega
    · simp only [hpb]
      have hpblen := jsLastIndexOf2_lt_length _ _ _ _ _ hpb
      split
      · omega
      · rcases hsb : jsLastIndexOf2 cleaned '.' ' ' (min (start + size) cleaned.length)
          with _ | sb
        · simp only [hsb]
          omega
        · simp only [hsb]
          have hsblen := jsLastIndexOf2_lt_length _ _ _ _ _ hsb
          split <;> omega
  · rw [if_neg he0]
    omega

/-- The window end of one `chunkText` iteration lies strictly past
`start`, within the text, and either reaches the end of the text or
moves strictly past `start + overlap` — the well-foundedness argument of
the sliding window. -/
theorem chunkWindowEnd_spec (cleaned : List Char) (size overlap start : Nat)
    (hov : overlap < size * 11 / 20) (hs : start < cleaned.length) :
    start < chunkWindowEnd cleaned size start ∧
      chunkWindowEnd cleaned size start ≤ cleaned.length ∧
      (chunkWindowEnd cleaned size start = cleaned.length ∨
        start + overlap < chunkWindowEnd cleaned size start) := by
  obtain ⟨h1, h2, h3⟩ := chunkBoundaryEnd_spec cleaned size overlap start hov hs
  unfold chunkWindowEnd
  rw [if_neg (by omega)]
  exact ⟨h1, h2, h3⟩

theorem chunkLoop_isSome (cleaned : List Char) (size overlap : Nat)
    (hov : overlap < size * 11 / 20) :
    ∀ fuel start acc, cleaned.length - start < fuel →
      (chunkLoop cleaned size overlap fuel start acc).isSome = true := by
  intro fuel
  induction fuel with
  | zero => intro start acc h; omega
  | succ n ih =>
    intro start acc h
    rw [chunkLoop]
    by_cases hs : start < cleaned.length
    · rw [if_pos hs]
      dsimp only
      by_cases hbr : cleaned.length ≤ chunkWindowEnd cleaned size start
      · rw [if_pos hbr]
        rfl
      · rw [if_neg hbr]
        obtain ⟨hlt, hle, hcase⟩ := chunkWindowEnd_spec cleaned size overlap start hov hs
        rcases hcase with hend | hprog
        · omega
        · exact ih _ _ (by omega)
    · rw [if_neg hs]
      rfl

/-- C10: whenever the overlap is positive and strictly below
`floor(chunkSizeChars * 0.55)`, every loop iteration strictly increases
the window start, so `chunkText` terminates (the fueled model returns a
result) on every input text. -/
theorem c10_chunkText_terminates (text : List Char) (options : ChunkingOptions)
    (hpos : 0 < options.overlapChars)
    (hov : options.overlapChars < options.chunkSizeChars * 11 / 20) :
    (chunkText text options).isSome = true := by
  unfold chunkText
  dsimp only
  split
  · rfl
  · exact chunkLoop_isSome _ _ _ hov _ 0 [] (by omega)

theorem c10_witness :
    (0 < (⟨5, 1⟩ : ChunkingOptions).overlapChars ∧
      (⟨5, 1⟩ : ChunkingOptions).overlapChars <
        (⟨5, 1⟩ : ChunkingOptions).chunkSizeChars * 11 / 20) ∧
      (chunkText ("hello world".toList) ⟨5, 1⟩).isSome = true := by
  refine ⟨⟨by decide, by decide⟩, ?_⟩
  exact c10_chunkText_terminates _ _ (by decide) (by decide)

/-! ## C5: chunk coverage -/

theorem jsTrim_eq_nil_iff (l : List Char) :
    jsTrim l = [] ↔ ∀ c ∈ l, isJsWs c = true := by
  unfold jsTrim
  rw [List.reverse_eq_nil_iff, List.dropWhile_eq_nil_iff]
  constructor
  · intro h c hc
    have hc2 : c ∈ List.takeWhile isJsWs l ++ List.dropWhile isJsWs l := by
      rw [List.takeWhile_append_dropWhile]
      exact hc
    rcases List.mem_append.1 hc2 with hm | hm
    · exact List.mem_takeWhile_imp hm
    · exact h c (by simpa using hm)
  · intro h c hc
    rw [List.mem_reverse] at hc
    exact h c ((List.dropWhile_suffix isJsWs).subset hc)

theorem dropWhile_head_false {p : Char → Bool} :
    ∀ (l : List Char) (c : Char), (l.dropWhile p).head? = some c → p c = false := by
  intro l
  induction l with
  | nil => intro c h; simp [List.dropWhile] at h
  | cons a rest ih =>
    intro c h
    rw [List.dropWhile_cons] at h
    split at h
    · exact ih c h
    · next hpc =>
      simp only [List.head?_cons, Option.some_inj] at h
      subst h
      simpa using hpc

theorem jsTrim_head_not_ws (l : List Char) (c : Char)
    (h : (jsTrim l).head? = some c) : isJsWs c = false := by
  unfold jsTrim at h
  rw [List.head?_reverse] at h
  obtain ⟨t, ht⟩ := List.dropWhile_suffix (l := (l.dropWhile isJsWs).reverse) isJsWs
  have h2 : ((l.dropWhile isJsWs).reverse).getLast? = some c := by
    rw [← ht, List.getLast?_append, h]
    rfl
  rw [List.getLast?_reverse] at h2
  exact dropWhile_head_false l c h2

theorem jsTrim_getLast_not_ws (l : List Char) (c : Char)
    (h : (jsTrim l).getLast? = some c) : isJsWs c = false := by
  unfold jsTrim at h
  rw [List.getLast?_reverse] at h
  exact dropWhile_head_false _ c h

theorem slice_get (cleaned : List Char) (s e j : Nat) (hj1 : s ≤ j) (hj2 : j < e) :
    ((cleaned.drop s).take (e - s)).get? (j - s) = cleaned.get? j := by
  rw [List.get?_take (by omega), List.get?_drop]
  congr 1
  omega

theorem jsTrim_slice_ne_nil (cleaned : List Char) (s e j : Nat) (c : Char)
    (hj1 : s ≤ j) (hj2 : j < e) (hc : cleaned.get? j = some c)
    (hws : isJsWs c = false) :
    ¬ jsTrim ((cleaned.drop s).take (e - s)) = [] := by
  intro hnil
  rw [jsTrim_eq_nil_iff] at hnil
  have hmem : c ∈ (cleaned.drop s).take (e - s) :=
    List.get?_mem (by rw [slice_get cleaned s e j hj1 hj2]; exact hc)
  rw [hnil c hmem] at hws
  cases hws

theorem jsTrim_slice_all_ws (cleaned : List Char) (s e : Nat)
    (hnil : jsTrim ((cleaned.drop s).take (e - s)) = []) :
    ∀ j, s ≤ j → j < e → ∀ c, cleaned.get? j = some c → isJsWs c = true := by
  intro j hj1 hj2 c hc
  rw [jsTrim_eq_nil_iff] at hnil
  exact hnil c (List.get?_mem (by rw [slice_get cleaned s e j hj1 hj2]; exact hc))

/-- The loop invariant of `chunkText`: starting from an accumulator with
dense indices, a zero first offset, in-bounds spans, whitespace-only
gaps, and a whitespace-only region between the last accumulated span and
the current window start, the loop returns a chunk list with the
coverage shape of `chunksCover`. -/
theorem chunkLoop_cover (cleaned : List Char) (size overlap : Nat)
    (hov : overlap < size * 11 / 20)
    (hfirst : ∀ c, cleaned.head? = some c → isJsWs c = false)
    (hlast : ∀ c, cleaned.getLast? = some c → isJsWs c = false) :
    ∀ fuel start acc, cleaned.length - start < fuel → start < cleaned.length →
      acc.map ChunkRecord.chunkIndex = List.range acc.length →
      (acc = [] → start = 0) →
      (acc ≠ [] → acc.head?.map ChunkRecord.startChar = some 0) →
      (∀ a, acc.getLast? = some a → wsOnlyBetween cleaned a.endChar start) →
      (∀ c ∈ acc, c.startChar < c.endChar ∧ c.endChar ≤ cleaned.length) →
      acc.Chain' (chunkGapOk cleaned) →
      ∃ out, chunkLoop cleaned size overlap fuel start acc = some out ∧
        chunksCover cleaned out := by
  intro fuel
  induction fuel with
  | zero => intro start acc hfuel; omega
  | succ n ih =>
    intro start acc hfuel hstart hidx hemp hhead hgap hbounds hchain
    obtain ⟨hlt, hle, hcase⟩ := chunkWindowEnd_spec cleaned size overlap start hov hstart
    rw [chunkLoop, if_pos hstart]
    dsimp only
    set e := chunkWindowEnd cleaned size start with hedef
    set raw := jsTrim ((cleaned.drop start).take (e - start)) with hrawdef
    by_cases hbr : cleaned.length ≤ e
    · -- final window: it contains the last character, which is not
      -- whitespace, so it is always pushed and ends at the text length
      have helen : e = cleaned.length := by omega
      obtain ⟨cl, hcl⟩ : ∃ cl, cleaned.get? (cleaned.length - 1) = some cl :=
        ⟨_, List.get?_eq_get (by omega)⟩
      have hclws : isJsWs cl = false := by
        apply hlast
        rw [List.getLast?_eq_get?]
        exact hcl
      have hraw : ¬ raw = [] := by
        rw [hrawdef]
        exact jsTrim_slice_ne_nil cleaned start e (cleaned.length - 1) cl
          (by omega) (by omega) hcl hclws
      rw [if_pos hbr, if_pos (List.length_pos.2 hraw)]
      refine ⟨_, rfl, ?_⟩
      constructor
      · -- dense indices
        rw [List.map_append, hidx, List.length_append]
        simp [List.range_succ]
      refine ⟨?_, ?_, ?_, ?_⟩
      · -- first chunk at zero
        rw [List.head?_append]
        rcases hacc : acc with _ | ⟨a, rest⟩
        · simp [hemp hacc]
        · have := hhead (by simp [hacc])
          rw [hacc] at this
          simpa using this
      · -- last chunk ends at the length
        rw [List.getLast?_concat]
        simp [helen]
      · -- bounds
        intro c hc
        rcases List.mem_append.1 hc with hm | hm
        · exact hbounds c hm
        · simp only [List.mem_singleton] at hm
          subst hm
          refine ⟨?_, ?_⟩ <;> dsimp only <;> omega
      · -- chain
        rw [List.chain'_append]
        refine ⟨hchain, List.chain'_singleton _, ?_⟩
        intro x hx y hy
        simp only [List.head?_cons, Option.mem_def, Option.some_inj] at hy
        subst hy
        right
        exact hgap x (by simpa using hx)
    · -- mid-document window: push or skip, then slide
      have hcase' : start + overlap < e := by
        rcases hcase with h | h
        · omega
        · exact h
      by_cases hraw : raw = []
      · -- skipped whitespace-only window
        rw [if_neg hbr, if_neg (by simp [List.length_pos, hraw])]
        have hacc : acc ≠ [] := by
          intro haccnil
          have hstart0 : start = 0 := hemp haccnil
          obtain ⟨c0, hc0⟩ : ∃ c0, cleaned.get? 0 = some c0 :=
            ⟨_, List.get?_eq_get (by omega)⟩
          have : isJsWs c0 = false := by
            apply hfirst
            rw [← List.get?_zero]
            exact hc0
          exact jsTrim_slice_ne_nil cleaned start e 0 c0 (by omega) (by omega)
            hc0 this hraw
        have hwsall := jsTrim_slice_all_ws cleaned start e hraw
        refine ih (e - overlap) acc (by omega) (by omega) hidx
          (fun h => absurd h hacc) hhead ?_ hbounds hchain
        intro a ha
        intro k hk1 hk2 c hc
        by_cases hks : k < start
        · exact hgap a ha k hk1 hks c hc
        · exact hwsall k (by omega) (by omega) c hc
      · -- pushed window
        rw [if_neg hbr, if_pos (List.length_pos.2 hraw)]
        refine ih (e - overlap) (acc ++ [⟨acc.length, start, e, raw, normalizeExcerpt raw⟩])
          (by omega) (by omega) ?_ (by simp) ?_ ?_ ?_ ?_
        · rw [List.map_append, hidx, List.length_append]
          simp [List.range_succ]
        · intro _
          rw [List.head?_append]
          rcases hacc : acc with _ | ⟨a, rest⟩
          · simp [hemp hacc]
          · have := hhead (by simp [hacc])
            rw [hacc] at this
            simpa using this
        · intro a ha
          rw [List.getLast?_concat] at ha
          cases ha
          intro k hk1 hk2 c hc
          dsimp only at hk1 hk2
          omega
        · intro c hc
          rcases List.mem_append.1 hc with hm | hm
          · exact hbounds c hm
          · simp only [List.mem_singleton] at hm
            subst hm
            refine ⟨?_, ?_⟩ <;> dsimp only <;> omega
        · rw [List.chain'_append]
          refine ⟨hchain, List.chain'_singleton _, ?_⟩
          intro x hx y hy
          simp only [List.head?_cons, Option.mem_def, Option.some_inj] at hy
          subst hy
          right
          exact hgap x (by simpa using hx)

/-- C5 counterexample: on the canonical text `"a" ++ 10 spaces ++ "b"`
with chunk size 5 and overlap 1, `chunkText` skips the all-whitespace
middle window, so the second chunk starts at offset 8 while the first
ends at offset 5 — the spans do not cover the text and the second
chunk's startChar exceeds the first chunk's endChar. -/
theorem c5_counterexample :
    normalizeCanonicalText ("a          b".toList) = "a          b".toList ∧
      (chunkText ("a          b".toList) ⟨5, 1⟩).map (fun cs =>
        cs.map (fun c => (c.chunkIndex, c.startChar, c.endChar))) =
        some [(0, 0, 5), (1, 8, 12)] := by
  exact ⟨by rfl, by rfl⟩

/-- C5 amended: for chunking options whose overlap is below
`floor(chunkSizeChars * 0.55)` (the well-foundedness precondition) and a
non-empty canonical-form text, `chunkText` returns chunks with dense
zero-based indices whose first span starts at offset 0 and whose last
span ends at the text length, with in-bounds non-empty spans, and where
a later chunk's startChar exceeds the previous chunk's endChar only when
every character between them is whitespace; the empty input yields zero
chunks. -/
theorem c5_amended_coverage (text : List Char) (options : ChunkingOptions)
    (hov : options.overlapChars < options.chunkSizeChars * 11 / 20)
    (hclean : jsTrim (replaceCrlf text) = text) (hne : text ≠ []) :
    (∃ out, chunkText text options = some out ∧ chunksCover text out) ∧
      chunkText [] options = some [] := by
  refine ⟨?_, rfl⟩
  unfold chunkText
  dsimp only
  rw [hclean, if_neg (by simpa [List.isEmpty_iff] using hne)]
  have hfirst : ∀ c, text.head? = some c → isJsWs c = false := by
    intro c hc
    exact jsTrim_head_not_ws (replaceCrlf text) c (by rwa [hclean])
  have hlast : ∀ c, text.getLast? = some c → isJsWs c = false := by
    intro c hc
    exact jsTrim_getLast_not_ws (replaceCrlf text) c (by rwa [hclean])
  exact chunkLoop_cover text options.chunkSizeChars options.overlapChars hov
    hfirst hlast (text.length + 1) 0 [] (by omega)
    (by simpa [List.length_pos] using hne) rfl (fun _ => rfl)
    (by simp) (by simp) (by simp) (by simp)

theorem c5_witness :
    ((⟨5, 1⟩ : ChunkingOptions).overlapChars <
        (⟨5, 1⟩ : ChunkingOptions).chunkSizeChars * 11 / 20 ∧
      jsTrim (replaceCrlf ("stories are fun".toList)) = "stories are fun".toList) ∧
      (∃ out, chunkText ("stories are fun".toList) ⟨5, 1⟩ = some out ∧
        chunksCover ("stories are fun".toList) out) := by
  refine ⟨⟨by decide, by rfl⟩, ?_⟩
  exact (c5_amended_coverage ("stories are fun".toList) ⟨5, 1⟩ (by decide)
    (by rfl) (by decide)).1

/-! ## C4: canonicalization idempotence

The development first proves that the pipeline after the NFKC step is
idempotent, then settles the claim: full idempotence fails (the control
strip can unblock a new canonical composition, so re-applying NFKC can
change the output), while idempotence holds at every input whose
canonical form is a fixed point of the NFKC step. -/

theorem sptab_ne_nl (c : Char) (h : isSpaceTab c = true) : c ≠ '\n' := by
  rcases (by simpa [isSpaceTab] using h : c = ' ' ∨ c = '\t') with h1 | h1 <;>
    subst h1 <;> decide

theorem sptab_ws (c : Char) (h : isSpaceTab c = true) : isJsWs c = true := by
  rcases (by simpa [isSpaceTab] using h : c = ' ' ∨ c = '\t') with h1 | h1 <;>
    subst h1 <;> decide

theorem getLast?_cons_ne {α : Type} (a : α) (l : List α) (h : l ≠ []) :
    (a :: l).getLast? = l.getLast? := by
  cases l with
  | nil => exact absurd rfl h
  | cons b t => exact List.getLast?_cons_cons

/-! ### Character transport through the pipeline stages -/

theorem mem_replaceCrlf (c : Char) :
    ∀ s, c ∈ replaceCrlf s → c ∈ s ∨ c = '\n' := by
  intro s
  induction s using replaceCrlf.induct with
  | case1 => intro h; cases h
  | case2 d => intro h; exact Or.inl h
  | case3 a b rest hab ih =>
    rw [replaceCrlf, if_pos hab]
    intro h
    rcases List.mem_cons.1 h with h | h
    · exact Or.inr h
    · rcases ih h with hm | hm
      · exact Or.inl (by simp [hm])
      · exact Or.inr hm
  | case4 a b rest hab ih =>
    rw [replaceCrlf, if_neg hab]
    intro h
    rcases List.mem_cons.1 h with h | h
    · exact Or.inl (by simp [h])
    · rcases ih h with hm | hm
      · exact Or.inl (List.mem_cons_of_mem a hm)
      · exact Or.inr hm

theorem mem_replaceCr (c : Char) (s : List Char) (h : c ∈ replaceCr s) :
    c ∈ s ∨ c = '\n' := by
  unfold replaceCr at h
  obtain ⟨d, hd, hdc⟩ := List.mem_map.1 h
  by_cases hr : d = '\r'
  · right
    rw [← hdc, if_pos hr]
  · left
    rw [if_neg hr] at hdc
    rwa [← hdc]

theorem mem_stripControls (c : Char) (s : List Char) (h : c ∈ stripControls s) :
    c ∈ s := List.mem_of_mem_filter h

theorem mem_rtlGo (c : Char) :
    ∀ s pend, c ∈ rtlGo pend s → c ∈ pend ∨ c ∈ s := by
  intro s
  induction s with
  | nil => intro pend h; cases h
  | cons d cs ih =>
    intro pend h
    rw [rtlGo] at h
    by_cases hnl : d = '\n'
    · rw [if_pos hnl] at h
      rcases List.mem_cons.1 h with h | h
      · right; simp [hnl, h]
      · rcases ih [] h with hm | hm
        · cases hm
        · right; exact List.mem_cons_of_mem d hm
    · rw [if_neg hnl] at h
      by_cases hsp : isSpaceTab d
      · rw [if_pos hsp] at h
        rcases ih (pend ++ [d]) h with hm | hm
        · rcases List.mem_append.1 hm with hm2 | hm2
          · exact Or.inl hm2
          · right; simp only [List.mem_singleton] at hm2; simp [hm2]
        · right; exact List.mem_cons_of_mem d hm
      · rw [if_neg hsp] at h
        rcases List.mem_append.1 h with hm | hm
        · exact Or.inl hm
        · rcases List.mem_cons.1 hm with hm | hm
          · right; simp [hm]
          · rcases ih [] hm with hm2 | hm2
            · cases hm2
            · right; exact List.mem_cons_of_mem d hm2

theorem mem_collapseGo (c : Char) :
    ∀ s pending, c ∈ collapseGo pending s → c ∈ s ∨ c = '\n' := by
  intro s
  induction s with
  | nil =>
    intro pending h
    rw [collapseGo] at h
    right
    exact List.eq_of_mem_replicate h
  | cons d cs ih =>
    intro pending h
    rw [collapseGo] at h
    by_cases hnl : d = '\n'
    · rw [if_pos hnl] at h
      rcases ih _ h with hm | hm
      · exact Or.inl (List.mem_cons_of_mem d hm)
      · exact Or.inr hm
    · rw [if_neg hnl] at h
      rcases List.mem_append.1 h with hm | hm
      · exact Or.inr (List.eq_of_mem_replicate hm)
      · rcases List.mem_cons.1 hm with hm | hm
        · exact Or.inl (by simp [hm])
        · rcases ih _ hm with hm2 | hm2
          · exact Or.inl (List.mem_cons_of_mem d hm2)
          · exact Or.inr hm2

theorem mem_jsTrim (c : Char) (s : List Char) (h : c ∈ jsTrim s) : c ∈ s := by
  unfold jsTrim at h
  rw [List.mem_reverse] at h
  have h2 := (List.dropWhile_suffix isJsWs).subset h
  rw [List.mem_reverse] at h2
  exact (List.dropWhile_suffix isJsWs).subset h2

/-! ### Identity of each stage on its fixed points -/

theorem replaceCrlf_eq_self : ∀ s : List Char, (∀ c ∈ s, c ≠ '\r') →
    replaceCrlf s = s := by
  intro s
  induction s using replaceCrlf.induct with
  | case1 => intro _; rfl
  | case2 d => intro _; rfl
  | case3 a b rest hab ih =>
    intro h
    exfalso
    rw [Bool.and_eq_true, decide_eq_true_eq, decide_eq_true_eq] at hab
    exact h a (List.mem_cons_self _ _) hab.1
  | case4 a b rest hab ih =>
    intro h
    rw [replaceCrlf, if_neg hab, ih (fun c hc => h c (List.mem_cons_of_mem a hc))]

theorem replaceCr_eq_self (s : List Char) (h : ∀ c ∈ s, c ≠ '\r') :
    replaceCr s = s := by
  unfold replaceCr
  induction s with
  | nil => rfl
  | cons a t ih =>
    rw [List.map_cons, if_neg (h a (List.mem_cons_self a t)),
      ih (fun c hc => h c (List.mem_cons_of_mem a hc))]

theorem stripControls_eq_self (s : List Char)
    (h : ∀ c ∈ s, isStrippedControl c = false) : stripControls s = s := by
  unfold stripControls
  rw [List.filter_eq_self]
  intro c hc
  simp [h c hc]

theorem dropWhile_eq_self_of_head {p : Char → Bool} (l : List Char)
    (h : ∀ c, l.head? = some c → p c = false) : l.dropWhile p = l := by
  cases l with
  | nil => rfl
  | cons a t =>
    rw [List.dropWhile_cons, if_neg]
    simp [h a rfl]

theorem jsTrim_idem (s : List Char) : jsTrim (jsTrim s) = jsTrim s := by
  conv_lhs => rw [jsTrim]
  rw [dropWhile_eq_self_of_head _ (fun c hc => jsTrim_head_not_ws s c hc)]
  rw [dropWhile_eq_self_of_head _ (fun c hc => by
    rw [List.head?_reverse] at hc
    exact jsTrim_getLast_not_ws s c hc)]
  exact List.reverse_reverse _

/-! ### `rtrimLines` equals its single-pass form `rtlGo` -/

theorem intercalate_cons_cons {α : Type} (sep x y : List α) (t : List (List α)) :
    List.intercalate sep (x :: y :: t) = x ++ sep ++ List.intercalate sep (y :: t) := by
  simp [List.intercalate, List.intersperse]

theorem intercalate_one {α : Type} (sep x : List α) :
    List.intercalate sep [x] = x := by
  simp [List.intercalate]

theorem intercalate_append_head {α : Type} (sep u w : List α) (t : List (List α)) :
    List.intercalate sep ((u ++ w) :: t) = u ++ List.intercalate sep (w :: t) := by
  cases t with
  | nil => rw [intercalate_one, intercalate_one]
  | cons y t' =>
    rw [intercalate_cons_cons, intercalate_cons_cons]
    simp [List.append_assoc]

theorem rstrip_sptab_nil (l : List Char) (h : ∀ c ∈ l, isSpaceTab c = true) :
    rstrip l = [] := by
  unfold rstrip
  rw [List.reverse_eq_nil_iff, List.dropWhile_eq_nil_iff]
  intro x hx
  exact h x (List.mem_reverse.1 hx)

theorem rstrip_append_cons (u v : List Char) (c : Char)
    (hc : isSpaceTab c = false) : rstrip (u ++ c :: v) = u ++ c :: rstrip v := by
  unfold rstrip
  rw [show u ++ c :: v = u ++ [c] ++ v by simp, List.reverse_append,
    List.reverse_append, List.dropWhile_append]
  by_cases hv : (v.reverse.dropWhile isSpaceTab).isEmpty
  · rw [if_pos hv]
    have hvnil : v.reverse.dropWhile isSpaceTab = [] := by
      simpa [List.isEmpty_iff] using hv
    rw [hvnil]
    simp [List.dropWhile_cons, hc]
  · rw [if_neg hv]
    simp

theorem splitOn_no_sep (l : List Char) (a : Char) (h : ∀ x ∈ l, x ≠ a) :
    l.splitOn a = [l] :=
  List.splitOnP_eq_single _ _ (fun x hx => by simp [h x hx])

theorem splitOn_sep_append (pend s : List Char) (a : Char)
    (h : ∀ x ∈ pend, x ≠ a) :
    (pend ++ a :: s).splitOn a = pend :: s.splitOn a := by
  show List.splitOnP (· == a) (pend ++ a :: s) = pend :: List.splitOnP (· == a) s
  exact List.splitOnP_first (· == a) pend (fun x hx => by simp [h x hx]) a (by simp) s

theorem splitOn_append_no_sep (a : Char) :
    ∀ (u v : List Char), (∀ x ∈ u, x ≠ a) →
      (u ++ v).splitOn a = (v.splitOn a).modifyHead (u ++ ·) := by
  intro u
  induction u with
  | nil =>
    intro v _
    simp only [List.nil_append]
    rcases hv : v.splitOn a with _ | ⟨h0, t⟩
    · exact absurd hv (List.splitOnP_ne_nil _ v)
    · rfl
  | cons x u' ih =>
    intro v h
    have hx : (x == a) = false := by
      simp [h x (List.mem_cons_self x u')]
    show List.splitOnP (· == a) (x :: (u' ++ v)) = _
    rw [List.splitOnP_cons, if_neg (by simp [hx])]
    have := ih v (fun y hy => h y (List.mem_cons_of_mem x hy))
    show (List.modifyHead (List.cons x) ((u' ++ v).splitOn a)) = _
    rw [this, List.modifyHead_modifyHead]
    rcases hv : v.splitOn a with _ | ⟨h0, t⟩
    · exact absurd hv (List.splitOnP_ne_nil _ v)
    · rfl

theorem rtrimLines_go : ∀ (s pend : List Char),
    (∀ c ∈ pend, isSpaceTab c = true) → rtrimLines (pend ++ s) = rtlGo pend s := by
  intro s
  induction s with
  | nil =>
    intro pend hpend
    rw [rtlGo]
    unfold rtrimLines
    rw [List.append_nil, splitOn_no_sep _ _
      (fun x hx => sptab_ne_nl x (hpend x hx)),
      List.map_cons, List.map_nil, rstrip_sptab_nil pend hpend, intercalate_one]
  | cons c cs ih =>
    intro pend hpend
    rw [rtlGo]
    by_cases hnl : c = '\n'
    · rw [if_pos hnl]
      subst hnl
      unfold rtrimLines
      rw [splitOn_sep_append pend cs '\n' (fun x hx => sptab_ne_nl x (hpend x hx)),
        List.map_cons, rstrip_sptab_nil pend hpend]
      rcases hv : cs.splitOn '\n' with _ | ⟨h0, t⟩
      · exact absurd hv (List.splitOnP_ne_nil _ cs)
      · rw [List.map_cons, intercalate_cons_cons]
        have := ih [] (by intro c hc; cases hc)
        unfold rtrimLines at this
        rw [List.nil_append] at this
        rw [hv, List.map_cons] at this
        rw [this]
        rfl
    · rw [if_neg hnl]
      by_cases hsp : isSpaceTab c
      · rw [if_pos hsp]
        rw [show pend ++ c :: cs = (pend ++ [c]) ++ cs by simp]
        exact ih (pend ++ [c]) (by
          intro x hx
          rcases List.mem_append.1 hx with hm | hm
          · exact hpend x hm
          · simp only [List.mem_singleton] at hm
            rw [hm]
            exact hsp)
      · rw [if_neg hsp]
        unfold rtrimLines
        rw [show pend ++ c :: cs = (pend ++ [c]) ++ cs by simp,
          splitOn_append_no_sep '\n' (pend ++ [c]) cs (by
            intro x hx
            rcases List.mem_append.1 hx with hm | hm
            · exact sptab_ne_nl x (hpend x hm)
            · simp only [List.mem_singleton] at hm
              rw [hm]; exact hnl)]
        rcases hv : cs.splitOn '\n' with _ | ⟨h0, t⟩
        · exact absurd hv (List.splitOnP_ne_nil _ cs)
        · rw [List.modifyHead_cons, List.map_cons,
            show (pend ++ [c]) ++ h0 = pend ++ c :: h0 by simp,
            rstrip_append_cons pend h0 c (by simpa using hsp),
            show pend ++ c :: rstrip h0 = (pend ++ [c]) ++ rstrip h0 by simp,
            intercalate_append_head]
          have := ih [] (by intro x hx; cases hx)
          unfold rtrimLines at this
          rw [List.nil_append] at this
          rw [hv, List.map_cons] at this
          rw [this]
          simp

theorem rtrimLines_eq_rtlGo (s : List Char) : rtrimLines s = rtlGo [] s := by
  have := rtrimLines_go s [] (by intro c hc; cases hc)
  rwa [List.nil_append] at this

/-! ### `noTrail`: the fixed points of the per-line trailing trim -/

theorem chain_noTrail_no_nl (l : List Char) (h : ∀ b ∈ l, b ≠ '\n') :
    l.Chain' noTrailPair := by
  induction l with
  | nil => exact List.chain'_nil
  | cons a t ih =>
    rw [List.chain'_cons']
    refine ⟨?_, ih (fun b hb => h b (List.mem_cons_of_mem a hb))⟩
    intro y hy _
    exact h y (List.mem_cons_of_mem a (List.mem_of_mem_head? hy))

theorem chain_noTrail_no_sptab (l : List Char)
    (h : ∀ a ∈ l, isSpaceTab a = false) : l.Chain' noTrailPair := by
  induction l with
  | nil => exact List.chain'_nil
  | cons a t ih =>
    rw [List.chain'_cons']
    refine ⟨?_, ih (fun b hb => h b (List.mem_cons_of_mem a hb))⟩
    intro y _ hsp
    rw [h a (List.mem_cons_self a t)] at hsp
    cases hsp

theorem noTrail_rtlGo :
    ∀ s pend, (∀ c ∈ pend, isSpaceTab c = true) → noTrail (rtlGo pend s) := by
  intro s
  induction s with
  | nil =>
    intro pend _
    rw [rtlGo]
    exact ⟨ List.chain'_nil, fun a ha => by cases ha⟩
  | cons c cs ih =>
    intro pend hpend
    rw [rtlGo]
    by_cases hnl : c = '\n'
    · rw [if_pos hnl]
      obtain ⟨hc, hl⟩ := ih [] (fun x hx => by cases hx)
      refine ⟨ List.chain'_cons'.2 ⟨fun y _ hsp => absurd hsp (by decide), hc⟩, ?_⟩
      intro a ha
      rcases hw : rtlGo [] cs with _ | ⟨w0, ws⟩
      · rw [hw] at ha
        rw [show a = '\n' by cases ha; rfl]
        decide
      · rw [hw] at ha
        rw [List.getLast?_cons_cons] at ha
        rw [← hw] at ha
        exact hl a (by rw [hw]; rw [hw] at ha; exact ha)
    · rw [if_neg hnl]
      by_cases hsp : isSpaceTab c
      · rw [if_pos hsp]
        exact ih (pend ++ [c]) (fun x hx => by
          rcases List.mem_append.1 hx with hm | hm
          · exact hpend x hm
          · simp only [List.mem_singleton] at hm
            rw [hm]; exact hsp)
      · rw [if_neg hsp]
        obtain ⟨hc, hl⟩ := ih [] (fun x hx => by cases hx)
        have hspf : isSpaceTab c = false := by simpa using hsp
        constructor
        · refine List.chain'_append.2
            ⟨chain_noTrail_no_nl pend (fun b hb => sptab_ne_nl b (hpend b hb)), ?_, ?_⟩
          · exact List.chain'_cons'.2
              ⟨fun y _ hcs => absurd hcs (by rw [hspf] at *; intro h2; cases h2), hc⟩
          · intro x _ y hy
            rw [show y = c by cases hy; rfl]
            exact fun _ => hnl
        · intro a ha
          rw [List.getLast?_append] at ha
          rcases hw : rtlGo [] cs with _ | ⟨w0, ws⟩
          · rw [hw] at ha
            rw [show a = c by cases ha; rfl]
            exact hspf
          · rw [hw, List.getLast?_cons_cons] at ha
            rcases hlast : (w0 :: ws).getLast? with _ | z
            · exact absurd hlast (by simp [List.getLast?_eq_none_iff])
            · rw [hlast] at ha
              have haz : a = z := by cases ha; rfl
              rw [haz]
              exact hl z (by rw [hw]; exact hlast)

theorem noTrail_append_right (u v : List Char) (h : noTrail (u ++ v)) :
    noTrail v := by
  refine ⟨ List.Chain'.right_of_append h.1, ?_⟩
  intro a ha
  refine h.2 a ?_
  rw [List.getLast?_append, ha]
  rfl

theorem rtlGo_eq_self :
    ∀ s pend, (∀ c ∈ pend, isSpaceTab c = true) → noTrail (pend ++ s) →
      rtlGo pend s = pend ++ s := by
  intro s
  induction s with
  | nil =>
    intro pend hpend h
    rw [rtlGo, List.append_nil]
    rcases hp : pend.getLast? with _ | a
    · rw [List.getLast?_eq_none_iff] at hp
      rw [hp]
    · exfalso
      rw [List.append_nil] at h
      have := h.2 a hp
      rw [hpend a ( List.mem_of_getLast?_eq_some hp)] at this
      cases this
  | cons c cs ih =>
    intro pend hpend h
    rw [rtlGo]
    by_cases hnl : c = '\n'
    · rw [if_pos hnl]
      have hpnil : pend = [] := by
        rcases List.eq_nil_or_concat pend with hp | ⟨q, a, hp⟩
        · exact hp
        · exfalso
          rw [hp] at h hpend
          have hlink := (List.chain'_append.1 h.1).2.2 a
            (by rw [List.concat_eq_append, List.getLast?_concat]; rfl) c rfl
          exact hlink (hpend a (by simp)) hnl
      rw [hpnil] at h ⊢
      rw [hnl] at h ⊢
      rw [ih [] (fun x hx => by cases hx)
        (by rw [List.nil_append] at h; exact noTrail_append_right ['\n'] cs h)]
      rfl
    · rw [if_neg hnl]
      by_cases hsp : isSpaceTab c
      · rw [if_pos hsp]
        rw [ih (pend ++ [c]) (fun x hx => by
            rcases List.mem_append.1 hx with hm | hm
            · exact hpend x hm
            · simp only [List.mem_singleton] at hm
              rw [hm]; exact hsp)
          (by rw [List.append_assoc]; simpa using h)]
        simp
      · rw [if_neg hsp]
        rw [ih [] (fun x hx => by cases hx)
          (by
            rw [List.nil_append]
            exact noTrail_append_right [c] cs
              (noTrail_append_right pend (c :: cs) h))]
        rfl

/-! ### `collapseGo` preserves `noTrail`; `noNl3` characterizes its range -/

theorem collapseGo_eq_nil : ∀ (s : List Char) (p : Nat),
    collapseGo p s = [] → s = [] := by
  intro s
  induction s with
  | nil => intro p _; rfl
  | cons c cs ih =>
    intro p h
    rw [collapseGo] at h
    by_cases hnl : c = '\n'
    · rw [if_pos hnl] at h
      exfalso
      have hcs := ih (p + 1) h
      rw [hcs, collapseGo] at h
      have := congrArg List.length h
      rw [List.length_replicate, List.length_nil] at this
      omega
    · rw [if_neg hnl] at h
      exact absurd h (by simp)

theorem collapseGo_zero_head (cs : List Char)
    (h : (collapseGo 0 cs).head? = some '\n') : cs.head? = some '\n' := by
  cases cs with
  | nil => cases h
  | cons c cs' =>
    by_cases hnl : c = '\n'
    · rw [hnl]
      rfl
    · exfalso
      rw [collapseGo, if_neg hnl] at h
      rw [show (List.replicate (min 0 2) '\n' ++ c :: collapseGo 0 cs').head? = some c
        from rfl] at h
      exact hnl (by cases h; rfl)

theorem collapseGo_getLast : ∀ (s : List Char) (p : Nat) (a : Char),
    (collapseGo p s).getLast? = some a → a = '\n' ∨ s.getLast? = some a := by
  intro s
  induction s with
  | nil =>
    intro p a h
    rw [collapseGo] at h
    left
    exact List.eq_of_mem_replicate ( List.mem_of_getLast?_eq_some h)
  | cons c cs ih =>
    intro p a h
    rw [collapseGo] at h
    by_cases hnl : c = '\n'
    · rw [if_pos hnl] at h
      rcases ih (p + 1) a h with h2 | h2
      · exact Or.inl h2
      · right
        rw [getLast?_cons_ne c cs (by
          intro hn; rw [hn] at h2; cases h2)]
        exact h2
    · rw [if_neg hnl] at h
      rw [List.getLast?_append] at h
      have h2 : (c :: collapseGo 0 cs).getLast? = some a := by
        rcases hx : (c :: collapseGo 0 cs).getLast? with _ | z
        · exact absurd hx (by simp [List.getLast?_eq_none_iff])
        · rw [hx] at h
          cases h
          rfl
      rcases hk : collapseGo 0 cs with _ | ⟨k0, ks⟩
      · rw [hk] at h2
        have hcs := collapseGo_eq_nil cs 0 hk
        right
        rw [hcs]
        cases h2
        rfl
      · rw [hk, List.getLast?_cons_cons] at h2
        rw [← hk] at h2
        rcases ih 0 a (by rw [hk]; rw [hk] at h2; exact h2) with h3 | h3
        · exact Or.inl h3
        · right
          rw [getLast?_cons_ne c cs (by
            intro hn; rw [hn] at h3; cases h3)]
          exact h3

theorem chain_collapseGo :
    ∀ (s : List Char), s.Chain' noTrailPair →
      ∀ p, List.Chain' noTrailPair (collapseGo p s) := by
  intro s
  induction s with
  | nil =>
    intro _ p
    rw [collapseGo]
    exact chain_noTrail_no_sptab _
      (fun a ha => by rw [List.eq_of_mem_replicate ha]; decide)
  | cons c cs ih =>
    intro hch p
    rw [collapseGo]
    by_cases hnl : c = '\n'
    · rw [if_pos hnl]
      exact ih ( List.Chain'.tail hch) (p + 1)
    · rw [if_neg hnl]
      refine List.chain'_append.2 ⟨?_, ?_, ?_⟩
      · exact chain_noTrail_no_sptab _
          (fun a ha => by rw [List.eq_of_mem_replicate ha]; decide)
      · refine List.chain'_cons'.2 ⟨?_, ih ( List.Chain'.tail hch) 0⟩
        intro y hy hsp
        intro hyn
        have hh : cs.head? = some '\n' := by
          apply collapseGo_zero_head
          rw [← hyn]
          exact hy
        have := ( List.chain'_cons'.1 hch).1 '\n' hh hsp
        exact this rfl
      · intro x hx y _
        rw [List.eq_of_mem_replicate ( List.mem_of_getLast?_eq_some hx)]
        intro hsp
        cases hsp

theorem noTrail_collapse (s : List Char) (h : noTrail s) :
    noTrail (collapseNewlines s) := by
  refine ⟨chain_collapseGo s h.1 0, ?_⟩
  intro a ha
  rcases collapseGo_getLast s 0 a ha with h1 | h1
  · rw [h1]; decide
  · exact h.2 a h1

theorem noNl3_tail (c : Char) (l : List Char) (h : noNl3 (c :: l) = true) :
    noNl3 l = true := by
  rcases l with _ | ⟨x, _ | ⟨y, r⟩⟩
  · rfl
  · rfl
  · rw [noNl3, Bool.and_eq_true] at h
    exact h.2

theorem noNl3_cons_of (c : Char) (l : List Char) (hc : c ≠ '\n')
    (h : noNl3 l = true) : noNl3 (c :: l) = true := by
  rcases l with _ | ⟨x, _ | ⟨y, r⟩⟩
  · rfl
  · rfl
  · rw [noNl3, Bool.and_eq_true]
    exact ⟨by simp [hc], h⟩

theorem noNl3_nl_cons (c : Char) (w : List Char) (hc : c ≠ '\n')
    (h : noNl3 (c :: w) = true) : noNl3 ('\n' :: c :: w) = true := by
  rcases w with _ | ⟨x, r⟩
  · rfl
  · rw [noNl3, Bool.and_eq_true]
    exact ⟨by simp [hc], h⟩

theorem noNl3_replicate_cons (k : Nat) (hk : k ≤ 2) (c : Char) (w : List Char)
    (hc : c ≠ '\n') (h : noNl3 (c :: w) = true) :
    noNl3 (List.replicate k '\n' ++ c :: w) = true := by
  interval_cases k
  · exact h
  · exact noNl3_nl_cons c w hc h
  · show noNl3 ('\n' :: '\n' :: c :: w) = true
    rcases w with _ | ⟨x, r⟩
    · rw [noNl3, Bool.and_eq_true]
      exact ⟨by simp [hc], rfl⟩
    · rw [noNl3, Bool.and_eq_true]
      exact ⟨by simp [hc], noNl3_nl_cons c (x :: r) hc h⟩

theorem noNl3_short (l : List Char) (h : l.length ≤ 2) : noNl3 l = true := by
  rcases l with _ | ⟨a, _ | ⟨b, _ | ⟨c, r⟩⟩⟩
  · rfl
  · rfl
  · rfl
  · simp at h

theorem noNl3_collapseGo : ∀ (s : List Char) (p : Nat),
    noNl3 (collapseGo p s) = true := by
  intro s
  induction s with
  | nil =>
    intro p
    rw [collapseGo]
    exact noNl3_short _ (by rw [List.length_replicate]; omega)
  | cons c cs ih =>
    intro p
    rw [collapseGo]
    by_cases hnl : c = '\n'
    · rw [if_pos hnl]
      exact ih (p + 1)
    · rw [if_neg hnl]
      exact noNl3_replicate_cons (min p 2) (by omega) c (collapseGo 0 cs) hnl
        (noNl3_cons_of c _ hnl (ih 0))

theorem noNl3_append_right (u v : List Char) (h : noNl3 (u ++ v) = true) :
    noNl3 v = true := by
  induction u with
  | nil => exact h
  | cons a t ih => exact ih (noNl3_tail a (t ++ v) h)

theorem noNl3_append_left : ∀ (u v : List Char), noNl3 (u ++ v) = true →
    noNl3 u = true := by
  intro u
  induction u with
  | nil => intro v _; rfl
  | cons a t ih =>
    intro v h
    rcases t with _ | ⟨b, _ | ⟨c, r⟩⟩
    · rfl
    · rfl
    · rw [noNl3, Bool.and_eq_true]
      rw [show (a :: b :: c :: r) ++ v = a :: b :: c :: (r ++ v) from rfl,
        noNl3, Bool.and_eq_true] at h
      exact ⟨h.1, ih v h.2⟩

theorem collapseGo_eq_self : ∀ (s : List Char) (p : Nat), p ≤ 2 →
    noNl3 (List.replicate p '\n' ++ s) = true →
    collapseGo p s = List.replicate p '\n' ++ s := by
  intro s
  induction s with
  | nil =>
    intro p hp _
    rw [collapseGo, Nat.min_eq_left hp, List.append_nil]
  | cons c cs ih =>
    intro p hp h
    rw [collapseGo]
    by_cases hnl : c = '\n'
    · rw [if_pos hnl]
      have hp1 : p ≤ 1 := by
        by_contra hgt
        have hp2 : p = 2 := by omega
        rw [hp2, hnl] at h
        rw [show List.replicate 2 '\n' ++ '\n' :: cs = '\n' :: '\n' :: '\n' :: cs
          from rfl, noNl3] at h
        simp at h
      have hcast : List.replicate (p + 1) '\n' ++ cs
          = List.replicate p '\n' ++ c :: cs := by
        rw [List.replicate_succ', List.append_assoc, hnl]
        rfl
      have := ih (p + 1) (by omega) (by rw [hcast]; exact h)
      rw [this, hcast]
    · rw [if_neg hnl]
      rw [Nat.min_eq_left hp]
      have hcs : noNl3 cs = true :=
        noNl3_tail c cs (noNl3_append_right (List.replicate p '\n') (c :: cs) h)
      rw [show collapseGo 0 cs = List.replicate 0 '\n' ++ cs
        from ih 0 (by omega) (by rw [List.replicate]; simpa using hcs)]
      rfl

/-! ### The trim and the canonical pipeline preserve the fixed-point
predicates -/

theorem revDropWhile_front (p : Char → Bool) (l : List Char) :
    ∃ v, (l.reverse.dropWhile p).reverse ++ v = l := by
  obtain ⟨t, ht⟩ := List.dropWhile_suffix (l := l.reverse) p
  exact ⟨t.reverse, by rw [← List.reverse_append, ht, List.reverse_reverse]⟩

theorem noTrail_jsTrim (s : List Char) (h : s.Chain' noTrailPair) :
    noTrail (jsTrim s) := by
  constructor
  · obtain ⟨t, ht⟩ := List.dropWhile_suffix (l := s) isJsWs
    have hd : (s.dropWhile isJsWs).Chain' noTrailPair := by
      rw [← ht] at h
      exact List.Chain'.right_of_append h
    obtain ⟨v, hv⟩ := revDropWhile_front isJsWs (s.dropWhile isJsWs)
    rw [← hv] at hd
    exact List.Chain'.left_of_append hd
  · intro a ha
    have := jsTrim_getLast_not_ws s a ha
    rcases hsp : isSpaceTab a with _ | _
    · rfl
    · rw [sptab_ws a hsp] at this
      cases this

theorem noNl3_jsTrim (s : List Char) (h : noNl3 s = true) :
    noNl3 (jsTrim s) = true := by
  obtain ⟨t, ht⟩ := List.dropWhile_suffix (l := s) isJsWs
  have hd : noNl3 (s.dropWhile isJsWs) = true := by
    rw [← ht] at h
    exact noNl3_append_right t _ h
  obtain ⟨v, hv⟩ := revDropWhile_front isJsWs (s.dropWhile isJsWs)
  rw [← hv] at hd
  exact noNl3_append_left _ v hd

theorem replaceCr_no_cr (s : List Char) (c : Char) (h : c ∈ replaceCr s) :
    c ≠ '\r' := by
  unfold replaceCr at h
  rw [List.mem_map] at h
  obtain ⟨a, _, ha⟩ := h
  by_cases han : a = '\r'
  · rw [if_pos han] at ha
    rw [← ha]
    decide
  · rw [if_neg han] at ha
    rw [← ha]
    exact han

theorem mem_canonAfterNfkc (c : Char) (s : List Char)
    (h : c ∈ canonAfterNfkc s) :
    c = '\n' ∨ c ∈ stripControls (replaceCr (replaceCrlf s)) := by
  unfold canonAfterNfkc collapseNewlines at h
  have h3 := mem_jsTrim c _ h
  rcases mem_collapseGo c _ 0 h3 with hm | hm
  · rw [rtrimLines_eq_rtlGo] at hm
    rcases mem_rtlGo c _ [] hm with h0 | h0
    · cases h0
    · exact Or.inr h0
  · exact Or.inl hm

theorem canonAfterNfkc_no_cr (s : List Char) (c : Char)
    (h : c ∈ canonAfterNfkc s) : c ≠ '\r' := by
  rcases mem_canonAfterNfkc c s h with h1 | h1
  · rw [h1]; decide
  · exact replaceCr_no_cr _ c (mem_stripControls c _ h1)

theorem canonAfterNfkc_no_control (s : List Char) (c : Char)
    (h : c ∈ canonAfterNfkc s) : isStrippedControl c = false := by
  rcases mem_canonAfterNfkc c s h with h1 | h1
  · rw [h1]; decide
  · unfold stripControls at h1
    have := (List.mem_filter.1 h1).2
    simpa using this

theorem canonAfterNfkc_noTrail (s : List Char) : noTrail (canonAfterNfkc s) := by
  unfold canonAfterNfkc
  apply noTrail_jsTrim
  apply chain_collapseGo
  have : noTrail (rtrimLines (stripControls (replaceCr (replaceCrlf s)))) := by
    rw [rtrimLines_eq_rtlGo]
    exact noTrail_rtlGo _ [] (fun x hx => by cases hx)
  exact this.1

theorem canonAfterNfkc_noNl3 (s : List Char) :
    noNl3 (canonAfterNfkc s) = true := by
  unfold canonAfterNfkc collapseNewlines
  exact noNl3_jsTrim _ (noNl3_collapseGo _ 0)

theorem canonAfterNfkc_of_fixed (y : List Char)
    (hcr : ∀ c ∈ y, c ≠ '\r')
    (hsc : ∀ c ∈ y, isStrippedControl c = false)
    (hnt : noTrail y) (hn3 : noNl3 y = true) :
    canonAfterNfkc y = jsTrim y := by
  unfold canonAfterNfkc
  rw [replaceCrlf_eq_self y hcr, replaceCr_eq_self y hcr,
    stripControls_eq_self y hsc, rtrimLines_eq_rtlGo,
    rtlGo_eq_self y [] (fun x hx => by cases hx) (by rw [List.nil_append]; exact hnt),
    List.nil_append,
    show collapseNewlines y = y by
      have := collapseGo_eq_self y 0 (by omega) (by rw [List.replicate]; simpa using hn3)
      rw [collapseNewlines, this, List.replicate]
      rfl]

theorem canonAfterNfkc_idem (s : List Char) :
    canonAfterNfkc (canonAfterNfkc s) = canonAfterNfkc s := by
  rw [canonAfterNfkc_of_fixed (canonAfterNfkc s)
    (canonAfterNfkc_no_cr s) (canonAfterNfkc_no_control s)
    (canonAfterNfkc_noTrail s) (canonAfterNfkc_noNl3 s)]
  show jsTrim (jsTrim _) = jsTrim _
  exact jsTrim_idem _

/-- C4 counterexample: `normalizeCanonicalText` is not idempotent on the
three-character input `"A" ++ U+0001 ++ U+0300`.  The control character
blocks the canonical composition of `A` with the combining grave accent
during the first NFKC pass; the control strip then removes it, so the
second pass composes the pair to `À` and the output changes. -/
theorem c4_counterexample :
    normalizeCanonicalText (normalizeCanonicalText ['A', '\x01', '̀']) ≠
      normalizeCanonicalText ['A', '\x01', '̀'] := by
  decide

/-- C4 amended: canonicalization is idempotent on every input whose
canonical text is a fixed point of the NFKC step (in particular on all
inputs whose canonical text is NFKC-normalized); the pipeline after the
NFKC step is idempotent unconditionally (`canonAfterNfkc_idem`). -/
theorem c4_amended_idempotent (x : List Char)
    (h : nfkcM (normalizeCanonicalText x) = normalizeCanonicalText x) :
    normalizeCanonicalText (normalizeCanonicalText x) = normalizeCanonicalText x := by
  rw [show normalizeCanonicalText (normalizeCanonicalText x)
      = canonAfterNfkc (nfkcM (normalizeCanonicalText x)) from rfl, h]
  exact canonAfterNfkc_idem (nfkcM x)

theorem c4_amended_witness :
    nfkcM (normalizeCanonicalText ['H', 'i', '\x01', ' ', '\n']) =
      normalizeCanonicalText ['H', 'i', '\x01', ' ', '\n'] ∧
    normalizeCanonicalText (normalizeCanonicalText ['H', 'i', '\x01', ' ', '\n']) =
      normalizeCanonicalText ['H', 'i', '\x01', ' ', '\n'] :=
  ⟨by decide, c4_amended_idempotent ['H', 'i', '\x01', ' ', '\n'] (by decide)⟩

/-! ## C1: the Settings consistency gate -/

/-- C1: for every run whose stored Settings embedding model name or
dimension differs from the current run's configured model / probed
dimension, with the force-reindex override off, `runIndexing` stops with
a fatal outcome in the initial state: the relational store equals the
starting store and no object-store, vector or settings write has been
made (the event log is empty). -/
theorem c1_settings_gate (cfg : Config) (opts : RunOptions) (env : Env)
    (discoveredFiles : List FileEntry) (db0 : Db) (pv : List (List Int))
    (hp : createWorkersAiEmbeddings env [probeText] = .ok pv)
    (hdim : ((pv.head?).map List.length).getD 0 ≠ 0)
    (hforce : opts.forceReindex = false)
    (hmis :
      (match (loadEmbeddingSettings db0).1 with
        | some m => m ≠ "" && m ≠ cfg.cfAiEmbedModel
        | none => false) = true ∨
      (match (loadEmbeddingSettings db0).2 with
        | some d => decide (d ≠ ((pv.head?).map List.length).getD 0)
        | none => false) = true) :
    (∃ msg, runIndexing cfg opts env discoveredFiles db0 =
      ⟨initState db0 (if opts.metadataFallbackOnly then
          discoveredFiles.filter (fun f => env.fallbackTarget f.relPath)
        else discoveredFiles).length, .fatal msg⟩) ∧
    (runIndexing cfg opts env discoveredFiles db0).state.db = db0 ∧
    (runIndexing cfg opts env discoveredFiles db0).state.r2 = [] ∧
    (runIndexing cfg opts env discoveredFiles db0).state.upserts = [] ∧
    (runIndexing cfg opts env discoveredFiles db0).state.log = [] := by
  suffices h : ∃ msg, runIndexing cfg opts env discoveredFiles db0 =
      ⟨initState db0 (if opts.metadataFallbackOnly then
          discoveredFiles.filter (fun f => env.fallbackTarget f.relPath)
        else discoveredFiles).length, .fatal msg⟩ by
    obtain ⟨msg, hrun⟩ := h
    refine ⟨⟨msg, hrun⟩, ?_, ?_, ?_, ?_⟩ <;> rw [hrun] <;> rfl
  unfold runIndexing
  rw [hp]
  dsimp only
  rw [if_neg hdim, hforce]
  rcases hb1 : (match (loadEmbeddingSettings db0).1 with
      | some m => m ≠ "" && m ≠ cfg.cfAiEmbedModel
      | none => false) with _ | _
  · have hb2 : (match (loadEmbeddingSettings db0).2 with
        | some d => decide (d ≠ ((pv.head?).map List.length).getD 0)
        | none => false) = true := by
      rcases hmis with h | h
      · rw [hb1] at h; cases h
      · exact h
    simp only [ne_eq, decide_not] at hb1 hb2
    refine ⟨"Embedding dimension mismatch", ?_⟩
    rw [if_neg (by simp [hb1]), if_pos (by simp [hb2])]
  · simp only [ne_eq, decide_not] at hb1
    refine ⟨"Embedding model mismatch", ?_⟩
    rw [if_pos (by simp [hb1])]

theorem c1_witness :
    createWorkersAiEmbeddings exampleEnv [probeText] = .ok [[1, 2]] ∧
    (([[1, 2]].head?).map List.length).getD 0 ≠ 0 ∧
    exampleOpts.forceReindex = false ∧
    ((match (loadEmbeddingSettings
        { emptyDb with settings := [("embedding_model_name", "other-model")] }).1 with
      | some m => m ≠ "" && m ≠ exampleConfig.cfAiEmbedModel
      | none => false) = true) ∧
    (runIndexing exampleConfig exampleOpts exampleEnv []
      { emptyDb with settings := [("embedding_model_name", "other-model")] }).state.db
      = { emptyDb with settings := [("embedding_model_name", "other-model")] } ∧
    (runIndexing exampleConfig exampleOpts exampleEnv []
      { emptyDb with settings := [("embedding_model_name", "other-model")] }).state.log
      = [] := by
  refine ⟨by rfl, by decide, by rfl, by decide, ?_, ?_⟩
  · exact (c1_settings_gate exampleConfig exampleOpts exampleEnv []
      { emptyDb with settings := [("embedding_model_name", "other-model")] }
      [[1, 2]] (by rfl) (by decide) (by rfl) (Or.inl (by decide))).2.1
  · exact (c1_settings_gate exampleConfig exampleOpts exampleEnv []
      { emptyDb with settings := [("embedding_model_name", "other-model")] }
      [[1, 2]] (by rfl) (by decide) (by rfl) (Or.inl (by decide))).2.2.2.2

/-! ## C9: vector batch bounds -/

theorem batchBytes_nil (env : Env) : batchBytes env [] = 0 := rfl

theorem batchBytes_push (env : Env) (b : List VectorRecord) (v : VectorRecord) :
    batchBytes env (b ++ [v]) = batchBytes env b + (env.jsonByteLength v + 1) := by
  unfold batchBytes
  rw [List.foldl_append]
  rfl

theorem vecInv_untouched (cfg : Config) (env : Env) (st st' : RunState)
    (hb : st'.vectorBatch = st.vectorBatch)
    (hy : st'.vectorBatchBytes = st.vectorBatchBytes)
    (hu : st'.upserts = st.upserts) (h : vecInv cfg env st) :
    vecInv cfg env st' := by
  unfold vecInv at h ⊢
  rw [hb, hy, hu]
  exact h

theorem vecInv_init (cfg : Config) (env : Env) (db0 : Db) (n : Nat) :
    vecInv cfg env (initState db0 n) :=
  ⟨Nat.zero_le _, rfl, Or.inl (Nat.zero_le _), fun b hb => by cases hb⟩

theorem vecInv_flush (cfg : Config) (env : Env) (st : RunState)
    (h : vecInv cfg env st) : vecInv cfg env (stFlushVectorBatch st) := by
  unfold stFlushVectorBatch
  split
  · exact h
  · refine ⟨Nat.zero_le _, rfl, Or.inl (Nat.zero_le _), ?_⟩
    intro b hb
    rcases List.mem_append.1 hb with hm | hm
    · exact h.2.2.2 b hm
    · rw [List.mem_singleton] at hm
      rw [hm]
      refine ⟨h.1, ?_⟩
      rw [← h.2.1]
      exact h.2.2.1

theorem flush_batch_empty (cfg : Config) (env : Env) (st : RunState)
    (h : vecInv cfg env st) :
    (stFlushVectorBatch st).vectorBatch = [] ∧
    (stFlushVectorBatch st).vectorBatchBytes = 0 := by
  unfold stFlushVectorBatch
  split
  · rename_i hemp
    have hnil : st.vectorBatch = [] := by
      rwa [List.isEmpty_iff] at hemp
    exact ⟨hnil, by rw [h.2.1, hnil]; rfl⟩
  · exact ⟨rfl, rfl⟩

theorem vecInv_push (cfg : Config) (env : Env) (st : RunState)
    (hsz : 1 ≤ cfg.vectorBatchSize) (h : vecInv cfg env st) (v : VectorRecord) :
    vecInv cfg env (stPushVector cfg st v (env.jsonByteLength v + 1)) := by
  unfold stPushVector
  dsimp only
  split
  · obtain ⟨hb, hy⟩ := flush_batch_empty cfg env st h
    have hf := vecInv_flush cfg env st h
    refine ⟨?_, ?_, ?_, ?_⟩
    · dsimp only
      rw [hb]
      exact hsz
    · dsimp only
      rw [hb, hy]
      rfl
    · right
      dsimp only
      rw [hb]
      rfl
    · exact hf.2.2.2
  · rename_i hcond
    have hc1 : ¬ cfg.vectorBatchSize ≤ st.vectorBatch.length := by
      intro hle
      exact hcond (by simp [hle])
    have hc2 : st.vectorBatchBytes + (env.jsonByteLength v + 1) ≤
        cfg.vectorBatchMaxBytes := by
      by_contra hgt
      exact hcond (by simp [Nat.lt_of_not_le hgt])
    refine ⟨?_, ?_, ?_, ?_⟩
    · dsimp only
      rw [List.length_append, List.length_singleton]
      omega
    · dsimp only
      rw [batchBytes_push, h.2.1]
    · left
      dsimp only
      omega
    · exact h.2.2.2

theorem vecInv_vectorLoop (cfg : Config) (env : Env) (storyId : String)
    (metadata : StoryMetadata) (status : StoryStatus)
    (embeddings : List (List Int)) (st : RunState) (chunks : List ChunkRecord)
    (hsz : 1 ≤ cfg.vectorBatchSize) (h : vecInv cfg env st) :
    vecInv cfg env (vectorLoop cfg env storyId metadata status embeddings st chunks) := by
  unfold vectorLoop
  generalize chunks.enum = l
  induction l generalizing st with
  | nil => exact h
  | cons ic rest ih =>
    rw [List.foldl_cons]
    exact ih _ (vecInv_push cfg env st hsz h _)

theorem vecInv_runAiTail (cfg : Config) (env : Env) (storyId : String)
    (metadata : StoryMetadata) (status : StoryStatus) (chunks : List ChunkRecord)
    (sra : Bool) (st : RunState)
    (hsz : 1 ≤ cfg.vectorBatchSize) (h : vecInv cfg env st) :
    vecInv cfg env (runAiTail cfg env storyId metadata status chunks sra st) := by
  unfold runAiTail
  split
  · split
    · exact vecInv_untouched cfg env st _ rfl rfl rfl h
    · exact vecInv_untouched cfg env _ _ rfl rfl rfl
        (vecInv_vectorLoop cfg env storyId metadata status _ st chunks hsz h)
  · exact vecInv_untouched cfg env st _ rfl rfl rfl h

theorem vecInv_orphanStep (cfg : Config) (env : Env) (st : RunState)
    (prev : Option ExistingSourceRow) (storyId : String)
    (h : vecInv cfg env st) : vecInv cfg env (orphanStep st prev storyId) := by
  unfold orphanStep
  split
  · split
    · refine vecInv_untouched cfg env st _ ?_ ?_ ?_ h <;>
        (unfold stOrphanCheck; dsimp only; split <;> rfl)
    · exact h
  · exact h

theorem vecInv_processFile (cfg : Config) (opts : RunOptions) (env : Env)
    (unchanged : List String) (st : RunState) (f : FileEntry)
    (hsz : 1 ≤ cfg.vectorBatchSize) (h : vecInv cfg env st) :
    vecInv cfg env (exceptState (processFile cfg opts env unchanged st f)) := by
  unfold processFile
  dsimp only
  split
  · exact vecInv_untouched cfg env st _ rfl rfl rfl h
  · split
    · exact vecInv_untouched cfg env st _ rfl rfl rfl h
    · split
      · exact vecInv_untouched cfg env st _ rfl rfl rfl h
      · have h1 : ∀ key, vecInv cfg env (if cfg.storeOriginalBinary = true then
            stR2Put st key .raw else st) := by
          intro key
          split
          · exact vecInv_untouched cfg env st _ rfl rfl rfl h
          · exact h
        split
        · exact vecInv_untouched cfg env _ _ rfl rfl rfl
            (vecInv_orphanStep cfg env _ _ _
              (vecInv_untouched cfg env _ _ rfl rfl rfl (h1 _)))
        · split
          · exact h1 _
          · exact vecInv_runAiTail cfg env _ _ _ _ _ _ hsz
              (vecInv_untouched cfg env _ _ rfl rfl rfl
                (vecInv_orphanStep cfg env _ _ _
                  (vecInv_untouched cfg env _ _ rfl rfl rfl (h1 _))))

theorem vecInv_processFiles (cfg : Config) (opts : RunOptions) (env : Env)
    (unchanged : List String) :
    ∀ (files : List FileEntry) (st : RunState), 1 ≤ cfg.vectorBatchSize →
      vecInv cfg env st →
      vecInv cfg env (exceptState (processFiles cfg opts env unchanged st files)) := by
  intro files
  induction files with
  | nil => intro st _ h; exact h
  | cons f rest ih =>
    intro st hsz h
    rw [processFiles]
    rcases hres : processFile cfg opts env unchanged st f with st2 | st2
    · have := vecInv_processFile cfg opts env unchanged st f hsz h
      rw [hres] at this
      exact this
    · have := vecInv_processFile cfg opts env unchanged st f hsz h
      rw [hres] at this
      exact ih st2 hsz this

theorem vecInv_setting (cfg : Config) (env : Env) (st : RunState)
    (key value : String) (h : vecInv cfg env st) :
    vecInv cfg env (stSetSetting st key value) :=
  vecInv_untouched cfg env st _ rfl rfl rfl h

theorem vecInv_processFiles_out (cfg : Config) (opts : RunOptions) (env : Env)
    (unchanged : List String) (files : List FileEntry) (st : RunState)
    (r : Except RunState RunState)
    (hres : processFiles cfg opts env unchanged st files = r)
    (hsz : 1 ≤ cfg.vectorBatchSize) (h : vecInv cfg env st) :
    vecInv cfg env (exceptState r) := by
  rw [← hres]
  exact vecInv_processFiles cfg opts env unchanged files st hsz h

/-- C9 amended: in every run with a positive configured vector batch
size, every batch handed to the vector-index upsert holds at most
`vectorBatchSize` records, and respects the `vectorBatchMaxBytes`
serialized-size ceiling unless it is a single record that alone exceeds
the ceiling. -/
theorem c9_amended_batch_bounds (cfg : Config) (opts : RunOptions) (env : Env)
    (discoveredFiles : List FileEntry) (db0 : Db)
    (hsz : 1 ≤ cfg.vectorBatchSize) :
    ∀ b ∈ (runIndexing cfg opts env discoveredFiles db0).state.upserts,
      b.length ≤ cfg.vectorBatchSize ∧
      (batchBytes env b ≤ cfg.vectorBatchMaxBytes ∨ b.length = 1) := by
  have key : vecInv cfg env (runIndexing cfg opts env discoveredFiles db0).state := by
    unfold runIndexing
    dsimp only
    split
    · exact vecInv_init cfg env db0 _
    · split
      · exact vecInv_init cfg env db0 _
      · split
        · exact vecInv_init cfg env db0 _
        · split
          · exact vecInv_init cfg env db0 _
          · split
            · rename_i stD hres
              exact vecInv_processFiles_out cfg opts env _ _ _ _ hres hsz
                ⟨Nat.zero_le _, rfl, Or.inl (Nat.zero_le _), fun b hb => by cases hb⟩
            · rename_i st2 hres
              have h2 : vecInv cfg env st2 :=
                vecInv_processFiles_out cfg opts env _ _ _ _ hres hsz
                  ⟨Nat.zero_le _, rfl, Or.inl (Nat.zero_le _), fun b hb => by cases hb⟩
              exact vecInv_setting cfg env _ _ _ (vecInv_setting cfg env _ _ _
                (vecInv_setting cfg env _ _ _ (vecInv_flush cfg env _ h2)))
  exact key.2.2.2

theorem c9_amended_witness :
    1 ≤ exampleConfig.vectorBatchSize ∧
    ∀ b ∈ (runIndexing exampleConfig exampleOpts exampleEnv
        [exampleFile "a.txt" "hello world"] emptyDb).state.upserts,
      b.length ≤ exampleConfig.vectorBatchSize ∧
      (batchBytes exampleEnv b ≤ exampleConfig.vectorBatchMaxBytes ∨ b.length = 1) :=
  ⟨by decide, c9_amended_batch_bounds exampleConfig exampleOpts exampleEnv
    [exampleFile "a.txt" "hello world"] emptyDb (by decide)⟩

/-- C9 counterexample: with a 10-byte batch ceiling and a single chunk
whose serialized vector record counts 51 bytes, the run upserts a batch
of 51 bytes: a batch may exceed `vectorBatchMaxBytes` when a single
record alone does. -/
theorem c9_counterexample :
    ∃ b ∈ (runIndexing c9Config exampleOpts exampleEnv
        [exampleFile "a.txt" "hello world"] emptyDb).state.upserts,
      c9Config.vectorBatchMaxBytes < batchBytes exampleEnv b := by
  decide

/-! ## C2: content deduplication across two paths -/

theorem pushVector_keeps (cfg : Config) (st : RunState) (v : VectorRecord) (b : Nat) :
    (stPushVector cfg st v b).db = st.db ∧
    (stPushVector cfg st v b).sourceByPath = st.sourceByPath ∧
    (stPushVector cfg st v b).canonicalByHash = st.canonicalByHash ∧
    ∃ t, (stPushVector cfg st v b).log = st.log ++ t := by
  unfold stPushVector stFlushVectorBatch
  dsimp only
  split
  · split
    · exact ⟨rfl, rfl, rfl, [], by rw [List.append_nil]⟩
    · exact ⟨rfl, rfl, rfl, [.vecUpsert st.vectorBatch.length], rfl⟩
  · exact ⟨rfl, rfl, rfl, [], by rw [List.append_nil]⟩

theorem vectorLoop_keeps (cfg : Config) (env : Env) (storyId : String)
    (metadata : StoryMetadata) (status : StoryStatus)
    (embeddings : List (List Int)) (st : RunState) (chunks : List ChunkRecord) :
    (vectorLoop cfg env storyId metadata status embeddings st chunks).db = st.db ∧
    (vectorLoop cfg env storyId metadata status embeddings st chunks).sourceByPath
      = st.sourceByPath ∧
    (vectorLoop cfg env storyId metadata status embeddings st chunks).canonicalByHash
      = st.canonicalByHash ∧
    ∃ t, (vectorLoop cfg env storyId metadata status embeddings st chunks).log
      = st.log ++ t := by
  unfold vectorLoop
  generalize chunks.enum = l
  induction l generalizing st with
  | nil => exact ⟨rfl, rfl, rfl, [], by rw [List.append_nil]; rfl⟩
  | cons ic rest ih =>
    rw [List.foldl_cons]
    obtain ⟨h1, h2, h3, t1, h4⟩ := pushVector_keeps cfg st
      (buildVector storyId metadata status embeddings ic.1 ic.2)
      (env.jsonByteLength (buildVector storyId metadata status embeddings ic.1 ic.2) + 1)
    obtain ⟨g1, g2, g3, t2, g4⟩ := ih (stPushVector cfg st
      (buildVector storyId metadata status embeddings ic.1 ic.2)
      (env.jsonByteLength (buildVector storyId metadata status embeddings ic.1 ic.2) + 1))
    exact ⟨g1.trans h1, g2.trans h2, g3.trans h3, t1 ++ t2,
      by rw [g4, h4, List.append_assoc]⟩

theorem runAiTail_keeps (cfg : Config) (env : Env) (storyId : String)
    (metadata : StoryMetadata) (status : StoryStatus) (chunks : List ChunkRecord)
    (sra : Bool) (st : RunState) :
    (runAiTail cfg env storyId metadata status chunks sra st).db = st.db ∧
    (runAiTail cfg env storyId metadata status chunks sra st).sourceByPath
      = st.sourceByPath ∧
    (runAiTail cfg env storyId metadata status chunks sra st).canonicalByHash
      = st.canonicalByHash ∧
    ∃ t, (runAiTail cfg env storyId metadata status chunks sra st).log
      = st.log ++ t := by
  unfold runAiTail
  split
  · split
    · exact ⟨rfl, rfl, rfl, [], by rw [List.append_nil]⟩
    · rename_i embeddings _
      obtain ⟨h1, h2, h3, t, h4⟩ := vectorLoop_keeps cfg env storyId metadata
        status embeddings st chunks
      exact ⟨h1, h2, h3, t, h4⟩
  · exact ⟨rfl, rfl, rfl, [], by rw [List.append_nil]⟩

theorem determineStatus_ne_failed (params : StatusParams) (config : Config)
    (he : params.extractionError = none) (hm : params.extractMethod ≠ "failed") :
    (determineStatus params config).1 ≠ .EXTRACTION_FAILED := by
  unfold determineStatus
  rw [he, if_neg (by simp [hm])]
  dsimp only
  repeat' split
  all_goals exact fun hc => StoryStatus.noConfusion hc

theorem modelIngest_ok (cfg : Config) (hash : List Char → String) (f : FileEntry)
    (hreg : f.extractorRegistered = true) (herr : f.errorMessage = none)
    (hm : f.extractMethod ≠ "failed") :
    (modelIngest cfg hash f).canonHash
        = some (hash (normalizeCanonicalText f.extractedText)) ∧
    (modelIngest cfg hash f).status ≠ .EXTRACTION_FAILED ∧
    (modelIngest cfg hash f).normalizedText = normalizeCanonicalText f.extractedText ∧
    (modelIngest cfg hash f).sourceType = f.sourceType ∧
    (modelIngest cfg hash f).extractMethod = f.extractMethod ∧
    (modelIngest cfg hash f).rawHash = f.rawHash ∧
    (modelIngest cfg hash f).titleFromSource = f.titleFromSource := by
  have hst := determineStatus_ne_failed
    ⟨f.sourceType, f.extractMethod, f.extractedText,
      normalizeCanonicalText f.extractedText, f.fileSizeBytes, f.errorMessage⟩ cfg
    herr hm
  unfold modelIngest
  rw [hreg, if_neg (by decide : ¬ ((!true) = true))]
  dsimp only
  refine ⟨?_, hst, rfl, rfl, rfl, rfl, rfl⟩
  rw [if_neg hst]

theorem find?_filter_ne {α : Type} (k k' : String) (h : k' ≠ k) :
    ∀ m : List (String × α),
      List.find? (fun e => e.1 = k') (m.filter (fun e => e.1 ≠ k))
        = List.find? (fun e => e.1 = k') m := by
  intro m
  induction m with
  | nil => rfl
  | cons e rest ih =>
    rw [List.filter_cons]
    by_cases hk : e.1 = k
    · rw [if_neg (by simp [hk])]
      rw [List.find?_cons_of_neg _ (by simp [hk, Ne.symm h])]
      exact ih
    · rw [if_pos (by simp [hk])]
      by_cases hk' : e.1 = k'
      · rw [List.find?_cons_of_pos _ (by simp [hk']),
          List.find?_cons_of_pos _ (by simp [hk'])]
      · rw [List.find?_cons_of_neg _ (by simp [hk']),
          List.find?_cons_of_neg _ (by simp [hk'])]
        exact ih

theorem mapGet_set_self {α : Type} (m : List (String × α)) (k : String) (v : α) :
    mapGet (mapSet m k v) k = some v := by
  unfold mapGet mapSet
  rw [List.find?_cons_of_pos _ (by simp)]
  rfl

theorem mapGet_set_ne {α : Type} (m : List (String × α)) (k k' : String) (v : α)
    (h : k' ≠ k) : mapGet (mapSet m k v) k' = mapGet m k' := by
  unfold mapGet mapSet
  rw [List.find?_cons_of_neg _ (by simp [Ne.symm h]), find?_filter_ne k k' h m]

theorem processFile_fresh (cfg : Config) (opts : RunOptions) (env : Env)
    (unchanged : List String) (st : RunState) (f : FileEntry)
    (chunks : List ChunkRecord)
    (hco : opts.changedOnly = false)
    (hsb : cfg.storeOriginalBinary = false)
    (hreg : f.extractorRegistered = true) (herr : f.errorMessage = none)
    (hm : f.extractMethod ≠ "failed")
    (hstories : st.db.stories = [])
    (hsources : st.db.storySources = [])
    (hfresh : mapGet st.canonicalByHash
      (env.hash (normalizeCanonicalText f.extractedText)) = none)
    (hprev : mapGet st.sourceByPath f.relPath = none)
    (hchunk : chunkText (normalizeCanonicalText f.extractedText)
      ⟨cfg.chunkSizeChars, cfg.chunkOverlapChars⟩ = some chunks) :
    ∃ st',
      processFile cfg opts env unchanged st f = .ok st' ∧
      st'.db.stories.map (fun s => (s.STORY_ID, s.CANON_HASH, s.SOURCE_COUNT))
        = [(createStoryId (env.hash (normalizeCanonicalText f.extractedText)),
            some (env.hash (normalizeCanonicalText f.extractedText)), 1)] ∧
      st'.db.storySources.map (fun r => (r.STORY_ID, r.SOURCE_PATH))
        = [(createStoryId (env.hash (normalizeCanonicalText f.extractedText)),
            f.relPath)] ∧
      st'.sourceByPath = mapSet st.sourceByPath f.relPath
        ⟨createStoryId (env.hash (normalizeCanonicalText f.extractedText)),
          f.relPath, f.rawHash⟩ ∧
      ∃ ce, st'.canonicalByHash = mapSet st.canonicalByHash
          (env.hash (normalizeCanonicalText f.extractedText)) ce ∧
        ce.STORY_ID = createStoryId (env.hash (normalizeCanonicalText f.extractedText)) := by
  obtain ⟨hch, hst, hnt, hty, hme, hrh, hti⟩ := modelIngest_ok cfg env.hash f hreg herr hm
  unfold processFile
  dsimp only
  rw [if_neg (show ¬(opts.changedOnly && unchanged.contains f.relPath) = true by
      simp [hco]),
    hch]
  dsimp only
  rw [if_neg hst]
  rw [if_neg (show ¬((mapGet st.canonicalByHash
      (env.hash (normalizeCanonicalText f.extractedText))).isSome &&
      !opts.reprocessExisting) = true by rw [hfresh]; simp)]
  rw [hnt, hchunk]
  dsimp only
  rw [hprev, hsb]
  refine ⟨_, rfl, ?_, ?_, ?_, ?_⟩
  · rw [(runAiTail_keeps _ _ _ _ _ _ _ _).1]
    simp [stRefreshCount, stUpsertSource, stReplaceTags, stUpsertStory, stR2Put,
      refreshSourceCountDb, dbUpsertSource, dbReplaceStoryTags,
      dbUpsertStory, orphanStep, hprev, hstories, hsources, hfresh, hrh]
  · rw [(runAiTail_keeps _ _ _ _ _ _ _ _).1]
    simp [stRefreshCount, stUpsertSource, stReplaceTags, stUpsertStory, stR2Put,
      refreshSourceCountDb, dbUpsertSource, dbReplaceStoryTags,
      dbUpsertStory, orphanStep, hprev, hstories, hsources, hfresh, hrh]
  · rw [(runAiTail_keeps _ _ _ _ _ _ _ _).2.1]
    rw [hrh]
    rw [hfresh]
    rfl
  · rw [(runAiTail_keeps _ _ _ _ _ _ _ _).2.2.1]
    exact ⟨_, rfl, by rw [hfresh]; rfl⟩

theorem processFile_dedup (cfg : Config) (opts : RunOptions) (env : Env)
    (unchanged : List String) (st : RunState) (f : FileEntry)
    (s1 : StoryRow) (row1 : SourceRow) (ce : ExistingStoryRow)
    (hco : opts.changedOnly = false)
    (hsb : cfg.storeOriginalBinary = false)
    (hrp : opts.reprocessExisting = false)
    (hreg : f.extractorRegistered = true) (herr : f.errorMessage = none)
    (hm : f.extractMethod ≠ "failed")
    (hstories : st.db.stories = [s1])
    (hs1 : s1.STORY_ID = ce.STORY_ID)
    (hsources : st.db.storySources = [row1])
    (hrow1id : row1.STORY_ID = ce.STORY_ID)
    (hrow1p : row1.SOURCE_PATH ≠ f.relPath)
    (hdedup : mapGet st.canonicalByHash
      (env.hash (normalizeCanonicalText f.extractedText)) = some ce)
    (hprev : mapGet st.sourceByPath f.relPath = none) :
    ∃ st',
      processFile cfg opts env unchanged st f = .ok st' ∧
      st'.db.stories.map (fun s => (s.STORY_ID, s.CANON_HASH, s.SOURCE_COUNT))
        = [(s1.STORY_ID, s1.CANON_HASH, 2)] ∧
      st'.db.storySources.map (fun r => (r.STORY_ID, r.SOURCE_PATH))
        = [(ce.STORY_ID, f.relPath), (row1.STORY_ID, row1.SOURCE_PATH)] := by
  obtain ⟨hch, hst, hnt, hty, hme, hrh, hti⟩ := modelIngest_ok cfg env.hash f hreg herr hm
  unfold processFile
  dsimp only
  rw [if_neg (show ¬(opts.changedOnly && unchanged.contains f.relPath) = true by
      simp [hco]),
    hch]
  dsimp only
  rw [if_neg hst]
  rw [if_pos (show ((mapGet st.canonicalByHash
      (env.hash (normalizeCanonicalText f.extractedText))).isSome &&
      !opts.reprocessExisting) = true by rw [hdedup, hrp]; rfl)]
  rw [hprev, hsb, hdedup]
  refine ⟨_, rfl, ?_, ?_⟩
  · simp [stRefreshCount, stUpsertSource, stR2Put, refreshSourceCountDb,
      dbUpsertSource, orphanStep, hstories, hsources, hs1, hrow1id, hrow1p]
  · simp [stRefreshCount, stUpsertSource, stR2Put, refreshSourceCountDb,
      dbUpsertSource, orphanStep, hstories, hsources, hs1, hrow1id, hrow1p]

theorem map_eq_singleton_inv {α β : Type} (f : α → β) (l : List α) (y : β)
    (h : l.map f = [y]) : ∃ a, l = [a] ∧ f a = y := by
  cases l with
  | nil => cases h
  | cons a t =>
    cases t with
    | nil =>
      simp only [List.map_cons, List.map_nil, List.cons.injEq, and_true] at h
      exact ⟨a, rfl, h⟩
    | cons b t2 => simp at h

theorem setting_db_stories (st : RunState) (k v : String) :
    (stSetSetting st k v).db.stories = st.db.stories := rfl

theorem setting_db_sources (st : RunState) (k v : String) :
    (stSetSetting st k v).db.storySources = st.db.storySources := rfl

theorem flush_db (st : RunState) : (stFlushVectorBatch st).db = st.db := by
  unfold stFlushVectorBatch
  split <;> rfl

/-- C2: starting from an empty store, a run over two distinct paths whose
extracted texts canonicalize to the same text (both extractions
succeeding) ends with exactly one story row, carrying that canonical
hash and SOURCE_COUNT 2, and with exactly two source rows, one per path,
both mapped to that story. -/
theorem c2_dedup_one_story (cfg : Config) (opts : RunOptions) (env : Env)
    (f1 f2 : FileEntry) (pv : List (List Int)) (chunks : List ChunkRecord)
    (hp : createWorkersAiEmbeddings env [probeText] = .ok pv)
    (hdim : ((pv.head?).map List.length).getD 0 ≠ 0)
    (hco : opts.changedOnly = false)
    (hmf : opts.metadataFallbackOnly = false)
    (hrp : opts.reprocessExisting = false)
    (hsb : cfg.storeOriginalBinary = false)
    (hpath : f1.relPath ≠ f2.relPath)
    (hreg1 : f1.extractorRegistered = true) (hreg2 : f2.extractorRegistered = true)
    (herr1 : f1.errorMessage = none) (herr2 : f2.errorMessage = none)
    (hm1 : f1.extractMethod ≠ "failed") (hm2 : f2.extractMethod ≠ "failed")
    (hnorm : normalizeCanonicalText f2.extractedText
      = normalizeCanonicalText f1.extractedText)
    (hchunk : chunkText (normalizeCanonicalText f1.extractedText)
      ⟨cfg.chunkSizeChars, cfg.chunkOverlapChars⟩ = some chunks) :
    ∃ sid,
      (runIndexing cfg opts env [f1, f2] emptyDb).state.db.stories.map
        (fun s => (s.STORY_ID, s.CANON_HASH, s.SOURCE_COUNT))
        = [(sid, some (env.hash (normalizeCanonicalText f1.extractedText)), 2)] ∧
      (runIndexing cfg opts env [f1, f2] emptyDb).state.db.storySources.map
        (fun r => (r.STORY_ID, r.SOURCE_PATH))
        = [(sid, f2.relPath), (sid, f1.relPath)] := by
  unfold runIndexing
  rw [hp]
  dsimp only
  rw [if_neg hdim]
  rw [if_neg (show ¬((match (loadEmbeddingSettings emptyDb).1 with
      | some m => m ≠ "" && m ≠ cfg.cfAiEmbedModel
      | none => false) && !opts.forceReindex) = true by
        simp [loadEmbeddingSettings, getSetting, mapGet, emptyDb])]
  rw [if_neg (show ¬((match (loadEmbeddingSettings emptyDb).2 with
      | some d => decide (d ≠ ((pv.head?).map List.length).getD 0)
      | none => false) && !opts.forceReindex) = true by
        simp [loadEmbeddingSettings, getSetting, mapGet, emptyDb])]
  simp only [hmf, hco, Bool.false_eq_true, if_false]
  obtain ⟨stA, hresA, hstoriesA, hsourcesA, hsbpA, ce, hcbhA, hceA⟩ :=
    processFile_fresh cfg opts env []
      { initState emptyDb 2 with
        sourceByPath := buildSourceMap emptyDb
        canonicalByHash := buildCanonMap emptyDb }
      f1 chunks hco hsb hreg1 herr1 hm1 rfl rfl rfl rfl hchunk
  obtain ⟨s1, hs1eq, hs1pair⟩ := map_eq_singleton_inv _ _ _ hstoriesA
  obtain ⟨row1, hrow1eq, hrow1pair⟩ := map_eq_singleton_inv _ _ _ hsourcesA
  simp only [Prod.ext_iff] at hs1pair hrow1pair
  obtain ⟨hs1id, hs1ch, hs1ct⟩ := hs1pair
  obtain ⟨hrow1id, hrow1p⟩ := hrow1pair
  obtain ⟨stB, hresB, hstoriesB, hsourcesB⟩ :=
    processFile_dedup cfg opts env [] stA f2 s1 row1 ce hco hsb hrp hreg2 herr2 hm2
      hs1eq (hs1id.trans hceA.symm) hrow1eq (hrow1id.trans hceA.symm)
      (by rw [hrow1p]; exact hpath)
      (by rw [hnorm, hcbhA]; exact mapGet_set_self _ _ _)
      (by rw [hsbpA, mapGet_set_ne _ _ _ _ (Ne.symm hpath)]; rfl)
  have hloop : processFiles cfg opts env []
      { initState emptyDb 2 with
        sourceByPath := buildSourceMap emptyDb
        canonicalByHash := buildCanonMap emptyDb } [f1, f2] = .ok stB := by
    rw [processFiles, hresA]
    dsimp only
    rw [processFiles, hresB]
    dsimp only
    rw [processFiles]
  split
  · rename_i stD heq
    exfalso
    have heq2 : processFiles cfg opts env []
        { initState emptyDb 2 with
          sourceByPath := buildSourceMap emptyDb
          canonicalByHash := buildCanonMap emptyDb } [f1, f2] = .error stD := heq
    rw [hloop] at heq2
    exact Except.noConfusion heq2
  · rename_i st2 heq
    have heq2 : processFiles cfg opts env []
        { initState emptyDb 2 with
          sourceByPath := buildSourceMap emptyDb
          canonicalByHash := buildCanonMap emptyDb } [f1, f2] = .ok st2 := heq
    rw [hloop] at heq2
    cases heq2
    dsimp only
    refine ⟨createStoryId (env.hash (normalizeCanonicalText f1.extractedText)), ?_, ?_⟩
    · rw [setting_db_stories, setting_db_stories, setting_db_stories, flush_db,
        hstoriesB, hs1id, hs1ch]
    · rw [setting_db_sources, setting_db_sources, setting_db_sources, flush_db,
        hsourcesB, hceA, hrow1id, hrow1p]

theorem c2_witness :
    (exampleFile "a.txt" "hello world").relPath
      ≠ (exampleFile "b.txt" "hello world").relPath ∧
    normalizeCanonicalText (exampleFile "b.txt" "hello world").extractedText
      = normalizeCanonicalText (exampleFile "a.txt" "hello world").extractedText ∧
    ∃ sid,
      (runIndexing exampleConfig exampleOpts exampleEnv
          [exampleFile "a.txt" "hello world", exampleFile "b.txt" "hello world"]
          emptyDb).state.db.stories.map
        (fun s => (s.STORY_ID, s.CANON_HASH, s.SOURCE_COUNT))
        = [(sid, some (exampleEnv.hash (normalizeCanonicalText
            (exampleFile "a.txt" "hello world").extractedText)), 2)] ∧
      (runIndexing exampleConfig exampleOpts exampleEnv
          [exampleFile "a.txt" "hello world", exampleFile "b.txt" "hello world"]
          emptyDb).state.db.storySources.map
        (fun r => (r.STORY_ID, r.SOURCE_PATH))
        = [(sid, (exampleFile "b.txt" "hello world").relPath),
           (sid, (exampleFile "a.txt" "hello world").relPath)] :=
  ⟨by decide, rfl,
    c2_dedup_one_story exampleConfig exampleOpts exampleEnv
      (exampleFile "a.txt" "hello world") (exampleFile "b.txt" "hello world")
      [[1, 2]]
      ((chunkText (normalizeCanonicalText
        (exampleFile "a.txt" "hello world").extractedText)
        ⟨exampleConfig.chunkSizeChars, exampleConfig.chunkOverlapChars⟩).getD [])
      rfl (by decide) rfl rfl rfl rfl (by decide) rfl rfl rfl rfl
      (by decide) (by decide) rfl (by decide)⟩

/-! ## C3: orphan cleanup after remapping a path -/

theorem runAiTail_log_drop (cfg : Config) (env : Env) (storyId : String)
    (metadata : StoryMetadata) (status : StoryStatus) (chunks : List ChunkRecord)
    (sra : Bool) (st : RunState) :
    (runAiTail cfg env storyId metadata status chunks sra st).log
      = st.log ++
        ((runAiTail cfg env storyId metadata status chunks sra st).log.drop
          st.log.length) := by
  obtain ⟨-, -, -, t, ht⟩ := runAiTail_keeps cfg env storyId metadata status chunks sra st
  rw [ht]
  congr 1
  rw [List.drop_left]

theorem log_tail_exists (cfg : Config) (env : Env) (storyId : String)
    (metadata : StoryMetadata) (status : StoryStatus) (chunks : List ChunkRecord)
    (sra : Bool) (ST : RunState) (P : List Event) (h : ST.log = P) :
    ∃ u, (runAiTail cfg env storyId metadata status chunks sra ST).log = P ++ u := by
  obtain ⟨-, -, -, t, ht⟩ := runAiTail_keeps cfg env storyId metadata status chunks sra ST
  exact ⟨t, by rw [ht, h]⟩

theorem flush_log_drop (st : RunState) :
    (stFlushVectorBatch st).log
      = st.log ++ ((stFlushVectorBatch st).log.drop st.log.length) := by
  unfold stFlushVectorBatch
  split
  · simp
  · rw [List.drop_left]

theorem setting_log (st : RunState) (k v : String) :
    (stSetSetting st k v).log = st.log ++ [.putSetting k] := rfl

/-- C3: when a path is reprocessed and its canonical hash now resolves
to a different story than its previous SourceRecord pointed at, and the
prior story is left with no sources, the prior story is deleted; the
event log shows the new SourceRecord write strictly before the orphan
check and deletion. -/
theorem c3_orphan_cleanup (cfg : Config) (opts : RunOptions) (env : Env)
    (f : FileEntry) (oldStory : StoryRow) (oldRow : SourceRow) (och : String)
    (pv : List (List Int)) (chunks : List ChunkRecord)
    (hp : createWorkersAiEmbeddings env [probeText] = .ok pv)
    (hdim : ((pv.head?).map List.length).getD 0 ≠ 0)
    (hco : opts.changedOnly = false)
    (hmf : opts.metadataFallbackOnly = false)
    (hsb : cfg.storeOriginalBinary = false)
    (hreg : f.extractorRegistered = true) (herr : f.errorMessage = none)
    (hm : f.extractMethod ≠ "failed")
    (hoch : oldStory.CANON_HASH = some och) (hochne : och ≠ "")
    (holdp : oldRow.SOURCE_PATH = f.relPath)
    (holdid : oldRow.STORY_ID = oldStory.STORY_ID)
    (hdiff : env.hash (normalizeCanonicalText f.extractedText) ≠ och)
    (hsid : createStoryId (env.hash (normalizeCanonicalText f.extractedText))
      ≠ oldStory.STORY_ID)
    (hchunk : chunkText (normalizeCanonicalText f.extractedText)
      ⟨cfg.chunkSizeChars, cfg.chunkOverlapChars⟩ = some chunks) :
    (∀ s ∈ (runIndexing cfg opts env [f]
        ⟨[oldStory], [oldRow], [], [], []⟩).state.db.stories,
      s.STORY_ID ≠ oldStory.STORY_ID) ∧
    ∃ t, (runIndexing cfg opts env [f]
        ⟨[oldStory], [oldRow], [], [], []⟩).state.log =
      [.r2Put ("stories/" ++ createStoryId
          (env.hash (normalizeCanonicalText f.extractedText)) ++ ".txt"),
       .r2Put ("stories/" ++ createStoryId
          (env.hash (normalizeCanonicalText f.extractedText)) ++ ".chunks.json"),
       .upsertStory (createStoryId (env.hash (normalizeCanonicalText f.extractedText))),
       .replaceTags (createStoryId (env.hash (normalizeCanonicalText f.extractedText))),
       .upsertSource (createStoryId (env.hash (normalizeCanonicalText f.extractedText)))
         f.relPath,
       .orphanCheck oldStory.STORY_ID,
       .deleteStory oldStory.STORY_ID,
       .refreshCount (createStoryId
          (env.hash (normalizeCanonicalText f.extractedText)))] ++ t := by
  have hsid' : oldStory.STORY_ID
      ≠ createStoryId (env.hash (normalizeCanonicalText f.extractedText)) :=
    Ne.symm hsid
  obtain ⟨hch, hst, hnt, hty, hme, hrh, hti⟩ := modelIngest_ok cfg env.hash f hreg herr hm
  have hcm : buildCanonMap ⟨[oldStory], [oldRow], [], [], []⟩
      = mapSet [] och ⟨oldStory.STORY_ID, oldStory.SOURCE_PATH, oldStory.RAW_HASH,
          och, oldStory.R2_KEY, oldStory.CHUNKS_KEY, oldStory.STORY_STATUS,
          oldStory.CHUNK_COUNT, oldStory.SOURCE_COUNT, oldStory.TITLE,
          oldStory.AUTHOR⟩ := by
    show List.foldl _ [] [oldStory] = _
    rw [List.foldl_cons, List.foldl_nil]
    rw [hoch]
    dsimp only
    rw [if_pos hochne]
  have hfresh : mapGet (buildCanonMap ⟨[oldStory], [oldRow], [], [], []⟩)
      (env.hash (normalizeCanonicalText f.extractedText)) = none := by
    rw [hcm, mapGet_set_ne _ _ _ _ hdiff]
    rfl
  have hprev : mapGet (buildSourceMap ⟨[oldStory], [oldRow], [], [], []⟩) f.relPath
      = some ⟨oldRow.STORY_ID, oldRow.SOURCE_PATH, oldRow.RAW_HASH⟩ := by
    simp only [buildSourceMap, List.foldl_cons, List.foldl_nil]
    unfold mapGet mapSet
    rw [List.find?_cons_of_pos _ (by simp [holdp])]
    rfl
  have step : ∃ st', processFile cfg opts env []
      { initState ⟨[oldStory], [oldRow], [], [], []⟩ 1 with
        sourceByPath := buildSourceMap ⟨[oldStory], [oldRow], [], [], []⟩
        canonicalByHash := buildCanonMap ⟨[oldStory], [oldRow], [], [], []⟩ } f
        = .ok st' ∧
      st'.db.stories.map (fun s => (s.STORY_ID, s.CANON_HASH, s.SOURCE_COUNT))
        = [(createStoryId (env.hash (normalizeCanonicalText f.extractedText)),
            some (env.hash (normalizeCanonicalText f.extractedText)), 1)] ∧
      ∃ u, st'.log =
        [.r2Put ("stories/" ++ createStoryId
            (env.hash (normalizeCanonicalText f.extractedText)) ++ ".txt"),
         .r2Put ("stories/" ++ createStoryId
            (env.hash (normalizeCanonicalText f.extractedText)) ++ ".chunks.json"),
         .upsertStory (createStoryId (env.hash (normalizeCanonicalText f.extractedText))),
         .replaceTags (createStoryId (env.hash (normalizeCanonicalText f.extractedText))),
         .upsertSource (createStoryId (env.hash (normalizeCanonicalText f.extractedText)))
           f.relPath,
         .orphanCheck oldStory.STORY_ID,
         .deleteStory oldStory.STORY_ID,
         .refreshCount (createStoryId
            (env.hash (normalizeCanonicalText f.extractedText)))] ++ u := by
    unfold processFile
    dsimp only
    rw [if_neg (show ¬(opts.changedOnly && List.contains [] f.relPath) = true by
        simp [hco]),
      hch]
    dsimp only
    rw [if_neg hst]
    rw [if_neg (show ¬((mapGet (buildCanonMap ⟨[oldStory], [oldRow], [], [], []⟩)
        (env.hash (normalizeCanonicalText f.extractedText))).isSome &&
        !opts.reprocessExisting) = true by rw [hfresh]; simp)]
    rw [hnt, hchunk]
    dsimp only
    rw [hprev, hsb]
    refine ⟨_, rfl, ?_, ?_⟩
    · rw [(runAiTail_keeps _ _ _ _ _ _ _ _).1]
      simp [stRefreshCount, stUpsertSource, stReplaceTags, stUpsertStory, stR2Put,
        refreshSourceCountDb, dbUpsertSource, dbReplaceStoryTags, dbUpsertStory,
        orphanStep, stOrphanCheck, initState, hfresh, hsid, hsid', holdid, holdp, hrh]
    · exact log_tail_exists _ _ _ _ _ _ _ _ _ (by
        simp [stRefreshCount, stUpsertSource, stReplaceTags, stUpsertStory, stR2Put,
          refreshSourceCountDb, dbUpsertSource, dbReplaceStoryTags, dbUpsertStory,
          orphanStep, stOrphanCheck, hfresh, hsid, hsid', holdid, holdp, initState])
  obtain ⟨stB, hresB, hstoriesB, u, hlogB⟩ := step
  unfold runIndexing
  rw [hp]
  dsimp only
  rw [if_neg hdim]
  rw [if_neg (show ¬((match
      (loadEmbeddingSettings ⟨[oldStory], [oldRow], [], [], []⟩).1 with
      | some m => m ≠ "" && m ≠ cfg.cfAiEmbedModel
      | none => false) && !opts.forceReindex) = true by
        simp [loadEmbeddingSettings, getSetting, mapGet])]
  rw [if_neg (show ¬((match
      (loadEmbeddingSettings ⟨[oldStory], [oldRow], [], [], []⟩).2 with
      | some d => decide (d ≠ ((pv.head?).map List.length).getD 0)
      | none => false) && !opts.forceReindex) = true by
        simp [loadEmbeddingSettings, getSetting, mapGet])]
  simp only [hmf, hco, Bool.false_eq_true, if_false]
  have hloop : processFiles cfg opts env []
      { initState ⟨[oldStory], [oldRow], [], [], []⟩ 1 with
        sourceByPath := buildSourceMap ⟨[oldStory], [oldRow], [], [], []⟩
        canonicalByHash := buildCanonMap ⟨[oldStory], [oldRow], [], [], []⟩ } [f]
      = .ok stB := by
    rw [processFiles, hresB]
    dsimp only
    rw [processFiles]
  split
  · rename_i stD heq
    exfalso
    have heq2 : processFiles cfg opts env []
        { initState ⟨[oldStory], [oldRow], [], [], []⟩ 1 with
          sourceByPath := buildSourceMap ⟨[oldStory], [oldRow], [], [], []⟩
          canonicalByHash := buildCanonMap ⟨[oldStory], [oldRow], [], [], []⟩ } [f]
        = .error stD := heq
    rw [hloop] at heq2
    exact Except.noConfusion heq2
  · rename_i st2 heq
    have heq2 : processFiles cfg opts env []
        { initState ⟨[oldStory], [oldRow], [], [], []⟩ 1 with
          sourceByPath := buildSourceMap ⟨[oldStory], [oldRow], [], [], []⟩
          canonicalByHash := buildCanonMap ⟨[oldStory], [oldRow], [], [], []⟩ } [f]
        = .ok st2 := heq
    rw [hloop] at heq2
    cases heq2
    dsimp only
    constructor
    · intro s hs
      rw [setting_db_stories, setting_db_stories, setting_db_stories, flush_db] at hs
      obtain ⟨s', hs'eq, hs'pair⟩ := map_eq_singleton_inv _ _ _ hstoriesB
      rw [hs'eq, List.mem_singleton] at hs
      rw [hs]
      simp only [Prod.ext_iff] at hs'pair
      rw [hs'pair.1]
      exact hsid
    · rw [setting_log, setting_log, setting_log, flush_log_drop, hlogB]
      exact ⟨_, by simp only [List.append_assoc]; rfl⟩

theorem c3_witness :
    createStoryId (exampleEnv.hash (normalizeCanonicalText
      (exampleFile "a.txt" "hello world").extractedText)) ≠ "OLD" ∧
    ∀ s ∈ (runIndexing exampleConfig exampleOpts exampleEnv
        [exampleFile "a.txt" "hello world"]
        ⟨[⟨"OLD", "a.txt", "h", "r", some "oldhash", .OK, 1, "txt_utf8", none,
            "T", none, 0, 0, "k", "ck", "t"⟩],
         [⟨"OLD", "a.txt", .txt, "txt_utf8", "r", "t", none⟩],
         [], [], []⟩).state.db.stories,
      s.STORY_ID ≠ "OLD" :=
  ⟨by decide,
    (c3_orphan_cleanup exampleConfig exampleOpts exampleEnv
      (exampleFile "a.txt" "hello world")
      ⟨"OLD", "a.txt", "h", "r", some "oldhash", .OK, 1, "txt_utf8", none,
        "T", none, 0, 0, "k", "ck", "t"⟩
      ⟨"OLD", "a.txt", .txt, "txt_utf8", "r", "t", none⟩
      "oldhash" [[1, 2]]
      ((chunkText (normalizeCanonicalText
        (exampleFile "a.txt" "hello world").extractedText)
        ⟨exampleConfig.chunkSizeChars, exampleConfig.chunkOverlapChars⟩).getD [])
      rfl (by decide) rfl rfl rfl rfl rfl (by decide) rfl (by decide) rfl rfl
      (by decide) (by decide) (by decide)).1⟩

end StoryIndex
